import Mathlib

/-!
Shallow embedding of `update_historia.py`.

The script copies `Historia/correct_answers.json` to
`website/correct_answers.json` and every regular file of `Historia/images`
into `website/images` (creating that directory if needed), exiting with
code 1 when `Historia` is absent and warning-and-skipping when a sub-item
is absent.

The filesystem is modelled as an association list from paths (lists of
name components, rooted at the common parent of `Historia` and `website`)
to entries (regular file with byte content, or directory).  `lookup` takes
the first matching key.  `shutil.copy2(src, dst)` copies into `dst` when a
directory occupies it, writing `dst/basename(src)`; it succeeds exactly when
the source is a regular file, the (possibly redirected) destination is not
itself a directory and its parent is a directory, and raises before modifying
anything otherwise.
`Path.glob("*")` lists the immediate children of a path (it matches hidden
names too, and yields nothing below a non-directory).  An uncaught
exception is modelled as `Except.error` carrying the filesystem state at
the moment of the raise; a completed process is `Except.ok` with the list
of performed actions, the final filesystem and the exit code.
-/

namespace UpdateHistoria

abbrev Content : Type := List Nat

/-- A path, as the list of its name components. -/
abbrev FPath : Type := List String

/-- A filesystem entry: a regular file with its byte content, or a directory. -/
inductive Entry where
  | file (c : Content)
  | dir
deriving DecidableEq, Repr

/-- A filesystem: an association list from paths to entries; `lookup` takes
the first matching key. -/
abbrev FS : Type := List (FPath × Entry)

def FS.lookup : FS → FPath → Option Entry
  | [], _ => none
  | (q, e) :: rest, p => if q = p then some e else FS.lookup rest p

/-- Python `Path.exists()`: some entry occupies the path. -/
def FS.pathExists (fs : FS) (p : FPath) : Bool :=
  (fs.lookup p).isSome

/-- Python `Path.is_file()`: the path holds a regular file. -/
def FS.isFile (fs : FS) (p : FPath) : Bool :=
  match fs.lookup p with
  | some (.file _) => true
  | _ => false

/-- The path holds a directory. -/
def FS.isDir (fs : FS) (p : FPath) : Bool :=
  match fs.lookup p with
  | some .dir => true
  | _ => false

/-- Byte content of the regular file at `p`, if any. -/
def FS.content (fs : FS) (p : FPath) : Option Content :=
  match fs.lookup p with
  | some (.file c) => some c
  | _ => none

/-- Remove every entry keyed by `p`. -/
def FS.erase (fs : FS) (p : FPath) : FS :=
  fs.filter (fun pe => pe.1 ≠ p)

/-- Write a regular file at `p` with content `c`, replacing any entry there. -/
def FS.setFile (fs : FS) (p : FPath) (c : Content) : FS :=
  (p, .file c) :: fs.erase p

/-- Put a directory at `p`, replacing any entry there. -/
def FS.setDir (fs : FS) (p : FPath) : FS :=
  (p, .dir) :: fs.erase p

/-- Python `os.path.basename` on a component list: the last component. -/
def basename : FPath → String
  | [] => ""
  | [n] => n
  | _ :: rest => basename rest

/-- The path `shutil.copy2(src, dst)` actually writes: when `dst` is a
directory, Python copies into it, at `dst/basename(src)`; otherwise at `dst`
itself. -/
def copy2Dest (fs : FS) (src dst : FPath) : FPath :=
  if fs.isDir dst then dst ++ [basename src] else dst

/-- Python `shutil.copy2(src, dst)`: when `dst` is a directory the copy is
redirected to `dst/basename(src)`.  The call succeeds exactly when `src` is a
regular file, the redirected destination is not itself a directory and its
parent is a directory; on success that destination holds a copy of the source
bytes.  A failure raises before anything is written. -/
def FS.copy2 (fs : FS) (src dst : FPath) : Option FS :=
  match fs.content src with
  | some c =>
    if fs.isDir (copy2Dest fs src dst) then none
    else if fs.isDir (copy2Dest fs src dst).dropLast then
      some (fs.setFile (copy2Dest fs src dst) c)
    else none
  | none => none

/-- One level of `mkdir`: an existing directory is kept (`exist_ok`), an
existing file is an error, an absent path gets a fresh directory. -/
def FS.mkdirStep (fs : FS) (p : FPath) : Option FS :=
  match fs.lookup p with
  | some .dir => some fs
  | some (.file _) => none
  | none => some (fs.setDir p)

def FS.mkdirAll : FS → FPath → List String → Option FS
  | fs, _, [] => some fs
  | fs, base, n :: rest =>
    match fs.mkdirStep (base ++ [n]) with
    | some fs1 => FS.mkdirAll fs1 (base ++ [n]) rest
    | none => none

/-- Python `Path.mkdir(parents=True, exist_ok=True)`: create each component of the
path in order, tolerating existing directories. -/
def FS.mkdirParents (fs : FS) (p : FPath) : Option FS :=
  FS.mkdirAll fs [] p

/-- The name under which `q` is an immediate child of `p`, if it is one.
`fnmatch`-style `"*"` matches every name, hidden ones included. -/
def globChild (p q : FPath) : Option String :=
  if q.take p.length = p then
    match q.drop p.length with
    | [n] => some n
    | _ => none
  else none

/-- Python `Path.glob("*")`: the names of the immediate children of `p`, in
filesystem order. -/
def FS.glob (fs : FS) (p : FPath) : List String :=
  fs.filterMap (fun pe => globChild p pe.1)

/-- The paths of `update_historia.py`, rooted at the directory that holds
both `Historia` and `website` (the script sits in `website`). -/
def historiaDir : FPath := ["Historia"]

def websiteDir : FPath := ["website"]

def sourceJson : FPath := historiaDir ++ ["correct_answers.json"]

def destJson : FPath := websiteDir ++ ["correct_answers.json"]

def sourceImages : FPath := historiaDir ++ ["images"]

def destImages : FPath := websiteDir ++ ["images"]

/-- An observable filesystem action of the script. -/
inductive Action where
  | copy (src dst : FPath)
  | mkdirDir (p : FPath)
deriving DecidableEq, Repr

/-- Outcome of a completed process: the actions performed in order, the
final filesystem, and the exit code. -/
structure RunResult where
  trace : List Action
  fs : FS
  exitCode : Nat
deriving DecidableEq, Repr

/-- Step 1 of `main`: copy `correct_answers.json` if present, else warn and
skip.  `none` is an uncaught exception from `shutil.copy2`. -/
def copyJsonStep (fs : FS) : Option (List Action × FS) :=
  if fs.pathExists sourceJson then
    match fs.copy2 sourceJson destJson with
    | some fs1 => some ([Action.copy sourceJson (copy2Dest fs sourceJson destJson)], fs1)
    | none => none
  else some ([], fs)

/-- Start of step 2: create the destination image directory when absent. -/
def ensureDestImages (fs : FS) : Option (List Action × FS) :=
  if fs.pathExists destImages then some ([], fs)
  else
    match fs.mkdirParents destImages with
    | some fs1 => some ([Action.mkdirDir destImages], fs1)
    | none => none

/-- The loop `for item in source_images.glob("*"): if item.is_file(): copy2`.
`Except.error` is an uncaught exception, carrying the state at the raise. -/
def copyImages : FS → List String → Except FS (List Action × FS)
  | fs, [] => .ok ([], fs)
  | fs, n :: rest =>
    if fs.isFile (sourceImages ++ [n]) then
      match fs.copy2 (sourceImages ++ [n]) (destImages ++ [n]) with
      | some fs1 =>
        match copyImages fs1 rest with
        | .ok (acts, fs2) =>
          .ok (Action.copy (sourceImages ++ [n])
            (copy2Dest fs (sourceImages ++ [n]) (destImages ++ [n])) :: acts, fs2)
        | .error f => .error f
      | none => .error fs
    else copyImages fs rest

/-- The whole of `main()` in `update_historia.py`. -/
def main (fs : FS) : Except FS RunResult :=
  if fs.pathExists historiaDir then
    match copyJsonStep fs with
    | none => .error fs
    | some (acts1, fs1) =>
      if fs1.pathExists sourceImages then
        match ensureDestImages fs1 with
        | none => .error fs1
        | some (acts2, fs2) =>
          match copyImages fs2 (fs2.glob sourceImages) with
          | .ok (acts3, fs3) => .ok ⟨acts1 ++ acts2 ++ acts3, fs3, 0⟩
          | .error f => .error f
      else .ok ⟨acts1, fs1, 0⟩
  else .ok ⟨[], fs, 1⟩

end UpdateHistoria


namespace UpdateHistoria

/-! ### Basic lookup lemmas -/

theorem lookup_erase (fs : FS) (p q : FPath) :
    (fs.erase p).lookup q = if q = p then none else fs.lookup q := by
  induction fs with
  | nil => simp [FS.erase, FS.lookup]
  | cons pe rest ih =>
    obtain ⟨k, e⟩ := pe
    by_cases hk : k = p
    · subst hk
      have h1 : FS.erase ((k, e) :: rest) k = FS.erase rest k := by
        simp [FS.erase, List.filter_cons]
      rw [h1, ih]
      by_cases hq : q = k
      · simp [hq]
      · have hkq : ¬ k = q := fun h => hq h.symm
        simp [FS.lookup, hq, hkq]
    · have h1 : FS.erase ((k, e) :: rest) p = (k, e) :: FS.erase rest p := by
        simp [FS.erase, List.filter_cons, hk]
      rw [h1]
      by_cases hq : q = k
      · subst hq
        have hqp : ¬ q = p := hk
        simp [FS.lookup, hqp]
      · have hkq : ¬ k = q := fun h => hq h.symm
        have l1 : FS.lookup ((k, e) :: FS.erase rest p) q = FS.lookup (FS.erase rest p) q := by
          simp [FS.lookup, hkq]
        have l2 : FS.lookup ((k, e) :: rest) q = FS.lookup rest q := by
          simp [FS.lookup, hkq]
        rw [l1, l2, ih]

theorem lookup_setFile (fs : FS) (p q : FPath) (c : Content) :
    (fs.setFile p c).lookup q = if q = p then some (.file c) else fs.lookup q := by
  unfold FS.setFile
  by_cases hq : q = p
  · subst hq
    simp [FS.lookup]
  · have hpq : ¬ p = q := fun h => hq h.symm
    simp [FS.lookup, hpq, hq, lookup_erase]

theorem lookup_setDir (fs : FS) (p q : FPath) :
    (fs.setDir p).lookup q = if q = p then some .dir else fs.lookup q := by
  unfold FS.setDir
  by_cases hq : q = p
  · subst hq
    simp [FS.lookup]
  · have hpq : ¬ p = q := fun h => hq h.symm
    simp [FS.lookup, hpq, hq, lookup_erase]

theorem lookup_mem {fs : FS} {p : FPath} {e : Entry} (h : fs.lookup p = some e) :
    (p, e) ∈ fs := by
  induction fs with
  | nil => simp [FS.lookup] at h
  | cons pe rest ih =>
    obtain ⟨k, d⟩ := pe
    by_cases hk : k = p
    · subst hk
      have hl : FS.lookup ((k, d) :: rest) k = some d := by simp [FS.lookup]
      rw [hl] at h
      obtain rfl := Option.some.inj h
      exact List.mem_cons_self _ _
    · have hl : FS.lookup ((k, d) :: rest) p = FS.lookup rest p := by
        simp [FS.lookup, hk]
      rw [hl] at h
      exact List.mem_cons_of_mem _ (ih h)

/-! ### Characterizations of the file predicates -/

theorem isFile_iff {fs : FS} {p : FPath} :
    fs.isFile p = true ↔ ∃ c, fs.lookup p = some (Entry.file c) := by
  unfold FS.isFile
  rcases h : fs.lookup p with _ | e
  · simp
  · rcases e with c | _ <;> simp

theorem isDir_iff {fs : FS} {p : FPath} :
    fs.isDir p = true ↔ fs.lookup p = some Entry.dir := by
  unfold FS.isDir
  rcases h : fs.lookup p with _ | e
  · simp
  · rcases e with c | _ <;> simp

theorem pathExists_iff {fs : FS} {p : FPath} :
    fs.pathExists p = true ↔ ∃ e, fs.lookup p = some e := by
  unfold FS.pathExists
  rcases h : fs.lookup p with _ | e <;> simp

theorem pathExists_false_iff {fs : FS} {p : FPath} :
    fs.pathExists p = false ↔ fs.lookup p = none := by
  unfold FS.pathExists
  rcases h : fs.lookup p with _ | e <;> simp

theorem content_eq_some {fs : FS} {p : FPath} {c : Content}
    (h : fs.content p = some c) : fs.lookup p = some (Entry.file c) := by
  unfold FS.content at h
  rcases hl : fs.lookup p with _ | e
  · rw [hl] at h
    simp at h
  · rcases e with c2 | _
    · rw [hl] at h
      obtain rfl : c2 = c := by simpa using h
      rfl
    · rw [hl] at h
      simp at h

theorem content_of_lookup {fs : FS} {p : FPath} {c : Content}
    (h : fs.lookup p = some (Entry.file c)) : fs.content p = some c := by
  unfold FS.content
  rw [h]

/-! ### basename, copy2Dest and copy2 characterizations -/

theorem basename_concat (p : FPath) (n : String) : basename (p ++ [n]) = n := by
  induction p with
  | nil => rfl
  | cons a rest ih =>
    cases rest with
    | nil => rfl
    | cons b l => exact ih

theorem copy2Dest_cases (fs : FS) (src dst : FPath) :
    (fs.isDir dst = false ∧ copy2Dest fs src dst = dst)
    ∨ (fs.isDir dst = true ∧ copy2Dest fs src dst = dst ++ [basename src]) := by
  unfold copy2Dest
  by_cases h : fs.isDir dst = true
  · rw [if_pos h]
    exact Or.inr ⟨h, rfl⟩
  · rw [if_neg h]
    exact Or.inl ⟨by simpa using h, rfl⟩

theorem copy2Dest_of_not_dir {fs : FS} {src dst : FPath} (h : fs.isDir dst = false) :
    copy2Dest fs src dst = dst := by
  unfold copy2Dest
  rw [if_neg (by simp [h])]

theorem copy2Dest_of_dir {fs : FS} {src dst : FPath} (h : fs.isDir dst = true) :
    copy2Dest fs src dst = dst ++ [basename src] := by
  unfold copy2Dest
  rw [if_pos h]

theorem copy2_eq_some {fs fs' : FS} {src dst : FPath}
    (h : fs.copy2 src dst = some fs') :
    ∃ c, fs.lookup src = some (Entry.file c)
      ∧ fs.isDir (copy2Dest fs src dst) = false
      ∧ fs' = fs.setFile (copy2Dest fs src dst) c := by
  unfold FS.copy2 at h
  rcases hc : fs.content src with _ | c
  · rw [hc] at h
    simp at h
  · rw [hc] at h
    simp only at h
    by_cases h1 : fs.isDir (copy2Dest fs src dst)
    · rw [if_pos h1] at h
      simp at h
    · rw [if_neg h1] at h
      by_cases h2 : fs.isDir (copy2Dest fs src dst).dropLast
      · rw [if_pos h2] at h
        exact ⟨c, content_eq_some hc, by simpa using h1, (Option.some.inj h).symm⟩
      · rw [if_neg h2] at h
        simp at h

end UpdateHistoria

namespace UpdateHistoria

/-! ### glob lemmas -/

theorem filterMap_erase_key (f : FPath × Entry → Option String) (fs : FS) (p : FPath)
    (hf : ∀ e, f (p, e) = none) :
    (fs.erase p).filterMap f = fs.filterMap f := by
  induction fs with
  | nil => simp [FS.erase]
  | cons pe rest ih =>
    obtain ⟨k, e⟩ := pe
    by_cases hk : k = p
    · subst hk
      have h1 : FS.erase ((k, e) :: rest) k = FS.erase rest k := by
        simp [FS.erase, List.filter_cons]
      rw [h1, ih, List.filterMap_cons, hf e]
    · have h1 : FS.erase ((k, e) :: rest) p = (k, e) :: FS.erase rest p := by
        simp [FS.erase, List.filter_cons, hk]
      rw [h1, List.filterMap_cons, List.filterMap_cons]
      cases f (k, e) <;> simp [ih]

theorem glob_set (fs : FS) (gp p : FPath) (e : Entry) (h : globChild gp p = none) :
    FS.glob ((p, e) :: fs.erase p) gp = fs.glob gp := by
  unfold FS.glob
  rw [List.filterMap_cons]
  simp only [h]
  exact filterMap_erase_key _ fs p (fun _ => h)

theorem glob_setFile (fs : FS) (gp p : FPath) (c : Content) (h : globChild gp p = none) :
    (fs.setFile p c).glob gp = fs.glob gp :=
  glob_set fs gp p (.file c) h

theorem glob_setDir (fs : FS) (gp p : FPath) (h : globChild gp p = none) :
    (fs.setDir p).glob gp = fs.glob gp :=
  glob_set fs gp p .dir h

theorem mem_glob_of_lookup {fs : FS} {p : FPath} {n : String} {e : Entry}
    (h : fs.lookup (p ++ [n]) = some e) : n ∈ fs.glob p := by
  have hmem := lookup_mem h
  unfold FS.glob
  rw [List.mem_filterMap]
  refine ⟨(p ++ [n], e), hmem, ?_⟩
  unfold globChild
  simp [List.take_left, List.drop_left]

/-! ### Path facts -/

theorem dest_ne_src (n m : String) : destImages ++ [n] ≠ sourceImages ++ [m] := by
  simp [destImages, sourceImages, websiteDir, historiaDir]

theorem destImg_inj {n m : String} (h : destImages ++ [n] = destImages ++ [m]) : n = m := by
  have := List.append_cancel_left h
  simpa using this

theorem globChild_src_destJson : globChild sourceImages destJson = none := by
  simp [globChild, sourceImages, destJson, historiaDir, websiteDir]

theorem globChild_src_website : globChild sourceImages websiteDir = none := by
  simp [globChild, sourceImages, websiteDir, historiaDir]

theorem globChild_src_destImages : globChild sourceImages destImages = none := by
  simp [globChild, sourceImages, destImages, historiaDir, websiteDir]

theorem globChild_src_destImg (n : String) : globChild sourceImages (destImages ++ [n]) = none := by
  simp [globChild, sourceImages, destImages, historiaDir, websiteDir, List.take, List.drop]

theorem globChild_src_destJsonChild (x : String) :
    globChild sourceImages (destJson ++ [x]) = none := by
  simp [globChild, sourceImages, destJson, historiaDir, websiteDir, List.take, List.drop]

theorem globChild_src_destImgChild (n m : String) :
    globChild sourceImages (destImages ++ [n, m]) = none := by
  simp [globChild, sourceImages, destImages, historiaDir, websiteDir, List.take, List.drop]

theorem destImgChild_ne_src (n m k : String) :
    destImages ++ [n, m] ≠ sourceImages ++ [k] := by
  simp [destImages, sourceImages, websiteDir, historiaDir]

theorem destImg_ne_destImgChild (k n m : String) :
    destImages ++ [k] ≠ destImages ++ [n, m] := by
  simp [destImages, websiteDir]

theorem destImgChild_inj {n m k l : String}
    (h : destImages ++ [n, m] = destImages ++ [k, l]) : n = k ∧ m = l := by
  have := List.append_cancel_left h
  simpa using this

theorem destImg_child (n : String) :
    (destImages ++ [n]) ++ [n] = destImages ++ [n, n] := by
  simp

theorem basename_srcImg (n : String) : basename (sourceImages ++ [n]) = n :=
  basename_concat _ n

theorem basename_sourceJson : basename sourceJson = "correct_answers.json" := rfl

/-- The actual destination of an image copy is the same-named path in the
destination image directory, or, when a directory occupies that path, the
same-named path one level further down. -/
theorem copy2Dest_img_forms (fs : FS) (m : String) :
    (fs.isDir (destImages ++ [m]) = false
      ∧ copy2Dest fs (sourceImages ++ [m]) (destImages ++ [m]) = destImages ++ [m])
    ∨ (fs.isDir (destImages ++ [m]) = true
      ∧ copy2Dest fs (sourceImages ++ [m]) (destImages ++ [m]) = destImages ++ [m, m]) := by
  rcases copy2Dest_cases fs (sourceImages ++ [m]) (destImages ++ [m]) with ⟨hd, hcd⟩ | ⟨hd, hcd⟩
  · exact Or.inl ⟨hd, hcd⟩
  · refine Or.inr ⟨hd, ?_⟩
    rw [hcd, basename_srcImg, destImg_child]

/-- The actual destination of the json copy is the json destination path, or,
when a directory occupies it, the same-named path inside that directory. -/
theorem copy2Dest_json_forms (fs : FS) :
    (fs.isDir destJson = false ∧ copy2Dest fs sourceJson destJson = destJson)
    ∨ (fs.isDir destJson = true
      ∧ copy2Dest fs sourceJson destJson = destJson ++ ["correct_answers.json"]) := by
  rcases copy2Dest_cases fs sourceJson destJson with ⟨hd, hcd⟩ | ⟨hd, hcd⟩
  · exact Or.inl ⟨hd, hcd⟩
  · refine Or.inr ⟨hd, ?_⟩
    rw [hcd, basename_sourceJson]

theorem src_ne_copy2Dest_img (fs : FS) (m n : String) :
    sourceImages ++ [n] ≠ copy2Dest fs (sourceImages ++ [m]) (destImages ++ [m]) := by
  rcases copy2Dest_img_forms fs m with ⟨-, hcd⟩ | ⟨-, hcd⟩
  · rw [hcd]
    exact fun hc => dest_ne_src m n hc.symm
  · rw [hcd]
    exact fun hc => destImgChild_ne_src m m n hc.symm

theorem globChild_src_copy2Dest_img (fs : FS) (m : String) :
    globChild sourceImages (copy2Dest fs (sourceImages ++ [m]) (destImages ++ [m])) = none := by
  rcases copy2Dest_img_forms fs m with ⟨-, hcd⟩ | ⟨-, hcd⟩
  · rw [hcd]
    exact globChild_src_destImg m
  · rw [hcd]
    exact globChild_src_destImgChild m m

end UpdateHistoria

namespace UpdateHistoria

/-! ### setFile/setDir convenience lemmas -/

theorem lookup_setFile_ne {fs : FS} {p q : FPath} (c : Content) (h : q ≠ p) :
    (fs.setFile p c).lookup q = fs.lookup q := by
  rw [lookup_setFile, if_neg h]

theorem lookup_setFile_self (fs : FS) (p : FPath) (c : Content) :
    (fs.setFile p c).lookup p = some (Entry.file c) := by
  rw [lookup_setFile, if_pos rfl]

theorem lookup_setDir_ne {fs : FS} {p q : FPath} (h : q ≠ p) :
    (fs.setDir p).lookup q = fs.lookup q := by
  rw [lookup_setDir, if_neg h]

theorem lookup_setDir_self (fs : FS) (p : FPath) :
    (fs.setDir p).lookup p = some Entry.dir := by
  rw [lookup_setDir, if_pos rfl]

theorem isFile_setFile_other {fs : FS} {p q : FPath} {c : Content} (h : q ≠ p) :
    (fs.setFile p c).isFile q = fs.isFile q := by
  unfold FS.isFile
  rw [lookup_setFile_ne c h]

theorem isDir_false_of_file {fs : FS} {p : FPath} {c : Content}
    (h : fs.lookup p = some (Entry.file c)) : fs.isDir p = false := by
  unfold FS.isDir
  rw [h]

/-- Writing a regular file over a non-directory entry changes no path's
directory status. -/
theorem isDir_setFile {fs : FS} {q : FPath} {c : Content} (hq : fs.isDir q = false)
    (p : FPath) : (fs.setFile q c).isDir p = fs.isDir p := by
  by_cases hp : p = q
  · subst hp
    unfold FS.isDir
    rw [lookup_setFile_self]
    exact hq.symm
  · unfold FS.isDir
    rw [lookup_setFile_ne c hp]

theorem isDir_setDir_ne {fs : FS} {q : FPath} (p : FPath) (hp : p ≠ q) :
    (fs.setDir q).isDir p = fs.isDir p := by
  unfold FS.isDir
  rw [lookup_setDir_ne hp]

/-! ### copyImages lemmas -/

theorem copyImages_nil_ok {fs fs' : FS} {acts : List Action}
    (h : copyImages fs [] = .ok (acts, fs')) : acts = [] ∧ fs' = fs := by
  unfold copyImages at h
  obtain ⟨h1, h2⟩ := Prod.mk.inj (Except.ok.inj h)
  exact ⟨h1.symm, h2.symm⟩

end UpdateHistoria

namespace UpdateHistoria

/-- Every action of the image loop copies a regular file of the source image
directory, listed by the glob; the destination is the same-named path in the
destination image directory when no directory occupies it, and the same-named
path inside that directory otherwise. -/
theorem copyImages_ok_acts {fs fs' : FS} {names : List String} {acts : List Action}
    (h : copyImages fs names = .ok (acts, fs')) :
    ∀ a ∈ acts, ∃ n, n ∈ names ∧ fs.isFile (sourceImages ++ [n]) = true
      ∧ ((fs.isDir (destImages ++ [n]) = false
            ∧ a = Action.copy (sourceImages ++ [n]) (destImages ++ [n]))
        ∨ (fs.isDir (destImages ++ [n]) = true
            ∧ a = Action.copy (sourceImages ++ [n]) (destImages ++ [n, n]))) := by
  induction names generalizing fs acts with
  | nil =>
    obtain ⟨rfl, -⟩ := copyImages_nil_ok h
    simp
  | cons m rest ih =>
    rw [copyImages] at h
    by_cases hf : fs.isFile (sourceImages ++ [m]) = true
    · rw [if_pos hf] at h
      split at h
      next fs1 heq =>
        split at h
        next acts0 fs2 heq2 =>
          obtain ⟨h1, h2⟩ := Prod.mk.inj (Except.ok.inj h)
          subst h1
          subst h2
          obtain ⟨c, hsrcm, hndm, rfl⟩ := copy2_eq_some heq
          intro a ha
          rcases List.mem_cons.mp ha with rfl | ha0
          · refine ⟨m, List.mem_cons_self _ _, hf, ?_⟩
            rcases copy2Dest_img_forms fs m with ⟨hd, hcd⟩ | ⟨hd, hcd⟩
            · exact Or.inl ⟨hd, by rw [hcd]⟩
            · exact Or.inr ⟨hd, by rw [hcd]⟩
          · obtain ⟨n, hn, hfile, hrest⟩ := ih heq2 a ha0
            refine ⟨n, List.mem_cons_of_mem _ hn, ?_, ?_⟩
            · rwa [isFile_setFile_other (src_ne_copy2Dest_img fs m n)] at hfile
            · rcases hrest with ⟨hdd, ha2⟩ | ⟨hdd, ha2⟩
              · exact Or.inl ⟨by rwa [isDir_setFile hndm] at hdd, ha2⟩
              · exact Or.inr ⟨by rwa [isDir_setFile hndm] at hdd, ha2⟩
        next f heq2 => simp at h
      next heq => simp at h
    · rw [if_neg hf] at h
      intro a ha
      obtain ⟨n, hn, hfile, hrest⟩ := ih h a ha
      exact ⟨n, List.mem_cons_of_mem _ hn, hfile, hrest⟩

/-- The image loop changes no path that is not the destination of one of
its copy actions. -/
theorem copyImages_ok_lookup {fs fs' : FS} {names : List String} {acts : List Action}
    (h : copyImages fs names = .ok (acts, fs')) (p : FPath)
    (hp : ∀ s d, Action.copy s d ∈ acts → p ≠ d) :
    fs'.lookup p = fs.lookup p := by
  induction names generalizing fs acts with
  | nil =>
    obtain ⟨-, rfl⟩ := copyImages_nil_ok h
    rfl
  | cons m rest ih =>
    rw [copyImages] at h
    by_cases hf : fs.isFile (sourceImages ++ [m]) = true
    · rw [if_pos hf] at h
      split at h
      next fs1 heq =>
        split at h
        next acts0 fs2 heq2 =>
          obtain ⟨h1, h2⟩ := Prod.mk.inj (Except.ok.inj h)
          subst h1
          subst h2
          obtain ⟨c, hsrcm, hndm, rfl⟩ := copy2_eq_some heq
          have hpd : p ≠ copy2Dest fs (sourceImages ++ [m]) (destImages ++ [m]) :=
            hp _ _ (List.mem_cons_self _ _)
          rw [ih heq2 (fun s d hd => hp s d (List.mem_cons_of_mem _ hd)),
            lookup_setFile_ne c hpd]
        next f heq2 => simp at h
      next heq => simp at h
    · rw [if_neg hf] at h
      exact ih h hp

/-- The image loop changes nothing outside the destination image directory
and its immediate subdirectories of the same name. -/
theorem copyImages_ok_lookup_other {fs fs' : FS} {names : List String} {acts : List Action}
    (h : copyImages fs names = .ok (acts, fs')) (p : FPath)
    (hp1 : ∀ n, p ≠ destImages ++ [n]) (hp2 : ∀ n, p ≠ destImages ++ [n, n]) :
    fs'.lookup p = fs.lookup p :=
  copyImages_ok_lookup h p (fun s d hd => by
    obtain ⟨n, -, -, hrest⟩ := copyImages_ok_acts h _ hd
    rcases hrest with ⟨-, ha⟩ | ⟨-, ha⟩
    · injection ha with ha1 ha2
      subst ha2
      exact hp1 n
    · injection ha with ha1 ha2
      subst ha2
      exact hp2 n)

/-- The image loop never changes the directory status of any path: it writes
regular files only over non-directory entries. -/
theorem copyImages_ok_isDir {fs fs' : FS} {names : List String} {acts : List Action}
    (h : copyImages fs names = .ok (acts, fs')) (q : FPath) :
    fs'.isDir q = fs.isDir q := by
  induction names generalizing fs acts with
  | nil =>
    obtain ⟨-, rfl⟩ := copyImages_nil_ok h
    rfl
  | cons m rest ih =>
    rw [copyImages] at h
    by_cases hf : fs.isFile (sourceImages ++ [m]) = true
    · rw [if_pos hf] at h
      split at h
      next fs1 heq =>
        split at h
        next acts0 fs2 heq2 =>
          obtain ⟨h1, h2⟩ := Prod.mk.inj (Except.ok.inj h)
          subst h1
          subst h2
          obtain ⟨c, -, hndm, rfl⟩ := copy2_eq_some heq
          rw [ih heq2, isDir_setFile hndm]
        next f heq2 => simp at h
      next heq => simp at h
    · rw [if_neg hf] at h
      exact ih h

/-- A path holding a directory is untouched by the image loop. -/
theorem copyImages_ok_dir_frame {fs fs' : FS} {names : List String} {acts : List Action}
    (h : copyImages fs names = .ok (acts, fs')) (q : FPath) (hq : fs.isDir q = true) :
    fs'.lookup q = fs.lookup q := by
  induction names generalizing fs acts with
  | nil =>
    obtain ⟨-, rfl⟩ := copyImages_nil_ok h
    rfl
  | cons m rest ih =>
    rw [copyImages] at h
    by_cases hf : fs.isFile (sourceImages ++ [m]) = true
    · rw [if_pos hf] at h
      split at h
      next fs1 heq =>
        split at h
        next acts0 fs2 heq2 =>
          obtain ⟨h1, h2⟩ := Prod.mk.inj (Except.ok.inj h)
          subst h1
          subst h2
          obtain ⟨c, hsrcm, hndm, rfl⟩ := copy2_eq_some heq
          have hne : q ≠ copy2Dest fs (sourceImages ++ [m]) (destImages ++ [m]) := by
            intro hc
            rw [hc, hndm] at hq
            exact absurd hq (by simp)
          have hq1 : (fs.setFile (copy2Dest fs (sourceImages ++ [m]) (destImages ++ [m])) c).isDir q = true := by
            rw [isDir_setFile hndm]
            exact hq
          rw [ih heq2 hq1, lookup_setFile_ne c hne]
        next f heq2 => simp at h
      next heq => simp at h
    · rw [if_neg hf] at h
      exact ih h hq

/-- Every regular file of the source image directory that the glob lists and
whose same-named destination is not a directory is copied there: afterwards
that destination holds its bytes and the copy action is in the action list. -/
theorem copyImages_ok_copied {fs fs' : FS} {names : List String} {acts : List Action}
    (h : copyImages fs names = .ok (acts, fs')) :
    ∀ n ∈ names, ∀ c, fs.lookup (sourceImages ++ [n]) = some (Entry.file c) →
      fs.isDir (destImages ++ [n]) = false →
      fs'.lookup (destImages ++ [n]) = some (Entry.file c)
      ∧ Action.copy (sourceImages ++ [n]) (destImages ++ [n]) ∈ acts := by
  induction names generalizing fs acts with
  | nil =>
    intro n hn
    simp at hn
  | cons m rest ih =>
    intro n hn c hsrc hnd
    rw [copyImages] at h
    by_cases hf : fs.isFile (sourceImages ++ [m]) = true
    · rw [if_pos hf] at h
      split at h
      next fs1 heq =>
        split at h
        next acts0 fs2 heq2 =>
          obtain ⟨h1, h2⟩ := Prod.mk.inj (Except.ok.inj h)
          subst h1
          subst h2
          obtain ⟨cm, hsrcm, hndm, rfl⟩ := copy2_eq_some heq
          by_cases hnm : n = m
          · subst hnm
            have hcd : copy2Dest fs (sourceImages ++ [n]) (destImages ++ [n])
                = destImages ++ [n] := copy2Dest_of_not_dir hnd
            obtain rfl : c = cm := by
              rw [hsrc] at hsrcm
              exact Entry.file.inj (Option.some.inj hsrcm)
            rw [hcd] at heq2 hndm ⊢
            refine ⟨?_, List.mem_cons_self _ _⟩
            by_cases hmem : n ∈ rest
            · have hsrc1 : (fs.setFile (destImages ++ [n]) c).lookup (sourceImages ++ [n])
                  = some (Entry.file c) := by
                rw [lookup_setFile_ne c (fun hc => dest_ne_src n n hc.symm)]
                exact hsrc
              have hnd1 : (fs.setFile (destImages ++ [n]) c).isDir (destImages ++ [n]) = false := by
                rw [isDir_setFile hnd]
                exact hnd
              exact (ih heq2 n hmem c hsrc1 hnd1).1
            · have hp1 : ∀ s d, Action.copy s d ∈ acts0 → destImages ++ [n] ≠ d := by
                intro s d hd
                obtain ⟨k, hk, -, hrest2⟩ := copyImages_ok_acts heq2 _ hd
                rcases hrest2 with ⟨-, ha⟩ | ⟨-, ha⟩
                · injection ha with ha1 ha2
                  subst ha2
                  intro hc
                  have hkn := destImg_inj hc
                  subst hkn
                  exact hmem hk
                · injection ha with ha1 ha2
                  subst ha2
                  exact destImg_ne_destImgChild n k k
              rw [copyImages_ok_lookup heq2 _ hp1, lookup_setFile_self]
          · have hn' : n ∈ rest := by
              rcases List.mem_cons.mp hn with h' | h'
              · exact absurd h' hnm
              · exact h'
            have hsrc1 : (fs.setFile (copy2Dest fs (sourceImages ++ [m]) (destImages ++ [m])) cm).lookup
                (sourceImages ++ [n]) = some (Entry.file c) := by
              rw [lookup_setFile_ne cm (src_ne_copy2Dest_img fs m n)]
              exact hsrc
            have hnd1 : (fs.setFile (copy2Dest fs (sourceImages ++ [m]) (destImages ++ [m])) cm).isDir
                (destImages ++ [n]) = false := by
              rw [isDir_setFile hndm]
              exact hnd
            obtain ⟨hl, hm⟩ := ih heq2 n hn' c hsrc1 hnd1
            exact ⟨hl, List.mem_cons_of_mem _ hm⟩
        next f heq2 => simp at h
      next heq => simp at h
    · rw [if_neg hf] at h
      have hnm : ¬ n = m := by
        intro hnm
        subst hnm
        exact hf (isFile_iff.mpr ⟨c, hsrc⟩)
      have hn' : n ∈ rest := by
        rcases List.mem_cons.mp hn with h' | h'
        · exact absurd h' hnm
        · exact h'
      exact ih h n hn' c hsrc hnd

/-- Every regular file of the source image directory whose same-named
destination is occupied by a directory is copied inside that directory, at
the same-named path one level further down. -/
theorem copyImages_ok_redirect {fs fs' : FS} {names : List String} {acts : List Action}
    (h : copyImages fs names = .ok (acts, fs')) :
    ∀ n ∈ names, ∀ c, fs.lookup (sourceImages ++ [n]) = some (Entry.file c) →
      fs.isDir (destImages ++ [n]) = true →
      fs'.lookup (destImages ++ [n, n]) = some (Entry.file c) := by
  induction names generalizing fs acts with
  | nil =>
    intro n hn
    simp at hn
  | cons m rest ih =>
    intro n hn c hsrc hdir
    rw [copyImages] at h
    by_cases hf : fs.isFile (sourceImages ++ [m]) = true
    · rw [if_pos hf] at h
      split at h
      next fs1 heq =>
        split at h
        next acts0 fs2 heq2 =>
          obtain ⟨h1, h2⟩ := Prod.mk.inj (Except.ok.inj h)
          subst h1
          subst h2
          obtain ⟨cm, hsrcm, hndm, rfl⟩ := copy2_eq_some heq
          by_cases hnm : n = m
          · subst hnm
            have hcd : copy2Dest fs (sourceImages ++ [n]) (destImages ++ [n])
                = destImages ++ [n, n] := by
              rw [copy2Dest_of_dir hdir, basename_srcImg, destImg_child]
            obtain rfl : c = cm := by
              rw [hsrc] at hsrcm
              exact Entry.file.inj (Option.some.inj hsrcm)
            rw [hcd] at heq2 hndm
            by_cases hmem : n ∈ rest
            · have hsrc1 : (fs.setFile (destImages ++ [n, n]) c).lookup (sourceImages ++ [n])
                  = some (Entry.file c) := by
                rw [lookup_setFile_ne c (fun hc => destImgChild_ne_src n n n hc.symm)]
                exact hsrc
              have hdir1 : (fs.setFile (destImages ++ [n, n]) c).isDir (destImages ++ [n]) = true := by
                rw [isDir_setFile hndm]
                exact hdir
              exact ih heq2 n hmem c hsrc1 hdir1
            · have hp1 : ∀ s d, Action.copy s d ∈ acts0 → destImages ++ [n, n] ≠ d := by
                intro s d hd
                obtain ⟨k, hk, -, hrest2⟩ := copyImages_ok_acts heq2 _ hd
                rcases hrest2 with ⟨-, ha⟩ | ⟨-, ha⟩
                · injection ha with ha1 ha2
                  subst ha2
                  exact fun hc => destImg_ne_destImgChild k n n hc.symm
                · injection ha with ha1 ha2
                  subst ha2
                  intro hc
                  obtain ⟨hk1, -⟩ := destImgChild_inj hc
                  subst hk1
                  exact hmem hk
              rw [copyImages_ok_lookup heq2 _ hp1, lookup_setFile_self]
          · have hn' : n ∈ rest := by
              rcases List.mem_cons.mp hn with h' | h'
              · exact absurd h' hnm
              · exact h'
            have hsrc1 : (fs.setFile (copy2Dest fs (sourceImages ++ [m]) (destImages ++ [m])) cm).lookup
                (sourceImages ++ [n]) = some (Entry.file c) := by
              rw [lookup_setFile_ne cm (src_ne_copy2Dest_img fs m n)]
              exact hsrc
            have hdir1 : (fs.setFile (copy2Dest fs (sourceImages ++ [m]) (destImages ++ [m])) cm).isDir
                (destImages ++ [n]) = true := by
              rw [isDir_setFile hndm]
              exact hdir
            exact ih heq2 n hn' c hsrc1 hdir1
        next f heq2 => simp at h
      next heq => simp at h
    · rw [if_neg hf] at h
      have hnm : ¬ n = m := by
        intro hnm
        subst hnm
        exact hf (isFile_iff.mpr ⟨c, hsrc⟩)
      have hn' : n ∈ rest := by
        rcases List.mem_cons.mp hn with h' | h'
        · exact absurd h' hnm
        · exact h'
      exact ih h n hn' c hsrc hdir

/-- The image loop does not change the listing of the source image directory. -/
theorem copyImages_ok_glob {fs fs' : FS} {names : List String} {acts : List Action}
    (h : copyImages fs names = .ok (acts, fs')) :
    fs'.glob sourceImages = fs.glob sourceImages := by
  induction names generalizing fs acts with
  | nil =>
    obtain ⟨-, rfl⟩ := copyImages_nil_ok h
    rfl
  | cons m rest ih =>
    rw [copyImages] at h
    by_cases hf : fs.isFile (sourceImages ++ [m]) = true
    · rw [if_pos hf] at h
      split at h
      next fs1 heq =>
        split at h
        next acts0 fs2 heq2 =>
          obtain ⟨h1, h2⟩ := Prod.mk.inj (Except.ok.inj h)
          subst h1
          subst h2
          obtain ⟨c, -, -, rfl⟩ := copy2_eq_some heq
          rw [ih heq2, glob_setFile _ _ _ _ (globChild_src_copy2Dest_img fs m)]
        next f heq2 => simp at h
      next heq => simp at h
    · rw [if_neg hf] at h
      exact ih h

end UpdateHistoria

namespace UpdateHistoria

/-! ### Case analyses of the three phases of main -/

theorem copyJsonStep_cases {fs fs1 : FS} {acts : List Action}
    (h : copyJsonStep fs = some (acts, fs1)) :
    (fs.pathExists sourceJson = false ∧ acts = [] ∧ fs1 = fs)
    ∨ (∃ c, fs.lookup sourceJson = some (Entry.file c)
        ∧ fs.isDir (copy2Dest fs sourceJson destJson) = false
        ∧ acts = [Action.copy sourceJson (copy2Dest fs sourceJson destJson)]
        ∧ fs1 = fs.setFile (copy2Dest fs sourceJson destJson) c) := by
  unfold copyJsonStep at h
  split at h
  next he =>
    split at h
    next fs2 heq =>
      obtain ⟨h1, h2⟩ := Prod.mk.inj (Option.some.inj h)
      obtain ⟨c, hsrc, hnd, rfl⟩ := copy2_eq_some heq
      exact Or.inr ⟨c, hsrc, hnd, h1.symm, h2.symm⟩
    next heq => simp at h
  next he =>
    obtain ⟨h1, h2⟩ := Prod.mk.inj (Option.some.inj h)
    refine Or.inl ⟨?_, h1.symm, h2.symm⟩
    simpa using he

theorem mkdirStep_cases {fs fs1 : FS} {p : FPath} (h : fs.mkdirStep p = some fs1) :
    (fs.lookup p = some Entry.dir ∧ fs1 = fs)
    ∨ (fs.lookup p = none ∧ fs1 = fs.setDir p) := by
  unfold FS.mkdirStep at h
  split at h
  next heq => exact Or.inl ⟨heq, (Option.some.inj h).symm⟩
  next c heq => simp at h
  next heq => exact Or.inr ⟨heq, (Option.some.inj h).symm⟩

theorem mkdirParents_destImages {fs fs1 : FS}
    (h : fs.mkdirParents destImages = some fs1) (hd : fs.lookup destImages = none) :
    (fs.lookup websiteDir = some Entry.dir ∧ fs1 = fs.setDir destImages)
    ∨ (fs.lookup websiteDir = none ∧ fs1 = (fs.setDir websiteDir).setDir destImages) := by
  unfold FS.mkdirParents at h
  rw [show destImages = ["website", "images"] from rfl] at h
  rw [FS.mkdirAll] at h
  simp only [List.nil_append] at h
  split at h
  next fsA heqA =>
    rw [FS.mkdirAll] at h
    simp only [List.cons_append, List.nil_append] at h
    split at h
    next fsB heqB =>
      rw [FS.mkdirAll] at h
      obtain rfl : fsB = fs1 := Option.some.inj h
      rcases mkdirStep_cases heqA with ⟨hw, rfl⟩ | ⟨hw, rfl⟩
      · rcases mkdirStep_cases heqB with ⟨hdd, rfl⟩ | ⟨hdd, rfl⟩
        · exact absurd hdd (by rw [show (["website", "images"] : FPath) = destImages from rfl, hd]; simp)
        · exact Or.inl ⟨hw, rfl⟩
      · rcases mkdirStep_cases heqB with ⟨hdd, rfl⟩ | ⟨hdd, rfl⟩
        · have hdd2 : (fs.setDir websiteDir).lookup destImages = some Entry.dir := hdd
          rw [lookup_setDir_ne (show destImages ≠ websiteDir by simp [destImages, websiteDir]),
            hd] at hdd2
          exact absurd hdd2 (by simp)
        · exact Or.inr ⟨hw, rfl⟩
    next heqB => simp at h
  next heqA => simp at h

theorem ensureDestImages_cases {fs fs1 : FS} {acts : List Action}
    (h : ensureDestImages fs = some (acts, fs1)) :
    (fs.pathExists destImages = true ∧ acts = [] ∧ fs1 = fs)
    ∨ (fs.lookup destImages = none ∧ acts = [Action.mkdirDir destImages]
        ∧ ((fs.lookup websiteDir = some Entry.dir ∧ fs1 = fs.setDir destImages)
          ∨ (fs.lookup websiteDir = none ∧ fs1 = (fs.setDir websiteDir).setDir destImages))) := by
  unfold ensureDestImages at h
  split at h
  next he =>
    obtain ⟨h1, h2⟩ := Prod.mk.inj (Option.some.inj h)
    exact Or.inl ⟨he, h1.symm, h2.symm⟩
  next he =>
    split at h
    next fs2 heq =>
      obtain ⟨h1, h2⟩ := Prod.mk.inj (Option.some.inj h)
      have hd : fs.lookup destImages = none := by
        rw [← pathExists_false_iff]
        simpa using he
      subst h2
      exact Or.inr ⟨hd, h1.symm, mkdirParents_destImages heq hd⟩
    next heq => simp at h

theorem main_ok_cases {fs : FS} {r : RunResult} (h : main fs = .ok r) :
    (fs.pathExists historiaDir = false ∧ r = ⟨[], fs, 1⟩)
    ∨ (fs.pathExists historiaDir = true ∧ ∃ acts1 fs1,
        copyJsonStep fs = some (acts1, fs1)
        ∧ ((fs1.pathExists sourceImages = false ∧ r = ⟨acts1, fs1, 0⟩)
          ∨ (fs1.pathExists sourceImages = true ∧ ∃ acts2 fs2 acts3 fs3,
              ensureDestImages fs1 = some (acts2, fs2)
              ∧ copyImages fs2 (fs2.glob sourceImages) = .ok (acts3, fs3)
              ∧ r = ⟨acts1 ++ acts2 ++ acts3, fs3, 0⟩))) := by
  unfold main at h
  split at h
  next hh =>
    split at h
    next heq1 => simp at h
    next acts1 fs1 heq1 =>
      split at h
      next hsi =>
        split at h
        next heq2 => simp at h
        next acts2 fs2 heq2 =>
          split at h
          next acts3 fs3 heq3 =>
            exact Or.inr ⟨hh, acts1, fs1, heq1,
              Or.inr ⟨hsi, acts2, fs2, acts3, fs3, heq2, heq3, (Except.ok.inj h).symm⟩⟩
          next f heq3 => simp at h
      next hsi =>
        refine Or.inr ⟨hh, acts1, fs1, heq1, Or.inl ⟨?_, (Except.ok.inj h).symm⟩⟩
        simpa using hsi
  next hh =>
    refine Or.inl ⟨?_, (Except.ok.inj h).symm⟩
    simpa using hh

end UpdateHistoria

namespace UpdateHistoria


/-! ### Congruence helpers and path disequalities -/

theorem pathExists_congr {fs g : FS} {p : FPath} (h : g.lookup p = fs.lookup p) :
    g.pathExists p = fs.pathExists p := by
  unfold FS.pathExists
  rw [h]

theorem isFile_congr {fs g : FS} {p : FPath} (h : g.lookup p = fs.lookup p) :
    g.isFile p = fs.isFile p := by
  unfold FS.isFile
  rw [h]

theorem isDir_congr {fs g : FS} {p : FPath} (h : g.lookup p = fs.lookup p) :
    g.isDir p = fs.isDir p := by
  unfold FS.isDir
  rw [h]

/-- Every path on the `Historia` side differs from every path main can write,
which all live under `website`. -/
theorem srcSide_frame_conds (p : FPath) (hp : p.head? = some "Historia") :
    p ≠ destJson ∧ p ≠ destJson ++ ["correct_answers.json"] ∧ p ≠ websiteDir
    ∧ p ≠ destImages ∧ (∀ n, p ≠ destImages ++ [n])
    ∧ (∀ n m, p ≠ destImages ++ [n, m]) := by
  refine ⟨?_, ?_, ?_, ?_, fun n => ?_, fun n m => ?_⟩ <;> intro hc <;> subst hc <;>
    simp [destJson, websiteDir, destImages] at hp

theorem destJson_ne_websiteDir : destJson ≠ websiteDir := by
  simp [destJson, websiteDir]

theorem destJson_ne_destImages : destJson ≠ destImages := by
  simp [destJson, destImages, websiteDir]

theorem destJson_ne_destImg (n : String) : destJson ≠ destImages ++ [n] := by
  simp [destJson, destImages, websiteDir]

theorem destJson_ne_destImgChild (n m : String) : destJson ≠ destImages ++ [n, m] := by
  simp [destJson, destImages, websiteDir]

theorem destJson_ne_destJsonChild (x : String) : destJson ≠ destJson ++ [x] := by
  simp [destJson, websiteDir]

theorem destJsonChild_ne_websiteDir (x : String) : destJson ++ [x] ≠ websiteDir := by
  simp [destJson, websiteDir]

theorem destJsonChild_ne_destImages (x : String) : destJson ++ [x] ≠ destImages := by
  simp [destJson, destImages, websiteDir]

theorem destJsonChild_ne_destImg (x n : String) : destJson ++ [x] ≠ destImages ++ [n] := by
  simp [destJson, destImages, websiteDir]

theorem destJsonChild_ne_destImgChild (x n m : String) :
    destJson ++ [x] ≠ destImages ++ [n, m] := by
  simp [destJson, destImages, websiteDir]

theorem destImages_ne_websiteDir : destImages ≠ websiteDir := by
  simp [destImages, websiteDir]

theorem destImages_ne_destImg (n : String) : destImages ≠ destImages ++ [n] := by
  simp [destImages, websiteDir]

theorem destImages_ne_destImgChild (n m : String) : destImages ≠ destImages ++ [n, m] := by
  simp [destImages, websiteDir]

theorem websiteDir_ne_destImg (n : String) : websiteDir ≠ destImages ++ [n] := by
  simp [destImages, websiteDir]

theorem websiteDir_ne_destImgChild (n m : String) : websiteDir ≠ destImages ++ [n, m] := by
  simp [destImages, websiteDir]

/-- The json copy target differs from every image-side path and from the
website root. -/
theorem copy2Dest_json_ne (fs : FS) :
    copy2Dest fs sourceJson destJson ≠ websiteDir
    ∧ copy2Dest fs sourceJson destJson ≠ destImages
    ∧ (∀ n, copy2Dest fs sourceJson destJson ≠ destImages ++ [n])
    ∧ (∀ n m, copy2Dest fs sourceJson destJson ≠ destImages ++ [n, m]) := by
  rcases copy2Dest_json_forms fs with ⟨-, hcd⟩ | ⟨-, hcd⟩ <;> rw [hcd]
  · exact ⟨destJson_ne_websiteDir, destJson_ne_destImages, destJson_ne_destImg,
      destJson_ne_destImgChild⟩
  · exact ⟨destJsonChild_ne_websiteDir _, destJsonChild_ne_destImages _,
      destJsonChild_ne_destImg _, destJsonChild_ne_destImgChild _⟩

/-! ### Frame lemmas for main -/

/-- Anything that is not one of the possible copy targets (the json
destination, the same-named path inside it, an image destination, or the
same-named path inside one) nor a created directory (website root, image
destination directory) is untouched by a completed run. -/
theorem main_frame_all {fs : FS} {r : RunResult} (h : main fs = .ok r) (p : FPath)
    (h1 : p ≠ destJson) (h2 : p ≠ destJson ++ ["correct_answers.json"])
    (h3 : p ≠ websiteDir) (h4 : p ≠ destImages)
    (h5 : ∀ n, p ≠ destImages ++ [n]) (h6 : ∀ n, p ≠ destImages ++ [n, n]) :
    r.fs.lookup p = fs.lookup p := by
  rcases main_ok_cases h with ⟨-, rfl⟩ | ⟨-, acts1, fs1, hjson, hrest⟩
  · rfl
  · have hfs1 : fs1.lookup p = fs.lookup p := by
      rcases copyJsonStep_cases hjson with ⟨-, -, rfl⟩ | ⟨c, -, -, -, rfl⟩
      · rfl
      · refine lookup_setFile_ne c ?_
        rcases copy2Dest_json_forms fs with ⟨-, hcd⟩ | ⟨-, hcd⟩ <;> rw [hcd]
        · exact h1
        · exact h2
    rcases hrest with ⟨-, rfl⟩ | ⟨-, acts2, fs2, acts3, fs3, hens, hloop, rfl⟩
    · exact hfs1
    · have hfs2 : fs2.lookup p = fs1.lookup p := by
        rcases ensureDestImages_cases hens with ⟨-, -, rfl⟩ | ⟨-, -, hforms⟩
        · rfl
        · rcases hforms with ⟨-, rfl⟩ | ⟨-, rfl⟩
          · exact lookup_setDir_ne h4
          · rw [lookup_setDir_ne h4, lookup_setDir_ne h3]
      have hfs3 : fs3.lookup p = fs2.lookup p := copyImages_ok_lookup_other hloop p h5 h6
      show fs3.lookup p = fs.lookup p
      rw [hfs3, hfs2, hfs1]

/-- Paths on the `Historia` side are untouched by a completed run. -/
theorem main_src_lookup {fs : FS} {r : RunResult} (h : main fs = .ok r)
    (p : FPath) (hp : p.head? = some "Historia") :
    r.fs.lookup p = fs.lookup p := by
  obtain ⟨h1, h2, h3, h4, h5, h6⟩ := srcSide_frame_conds p hp
  exact main_frame_all h p h1 h2 h3 h4 h5 (fun n => h6 n n)

/-- A completed run does not change the listing of the source image directory. -/
theorem main_glob_src {fs : FS} {r : RunResult} (h : main fs = .ok r) :
    r.fs.glob sourceImages = fs.glob sourceImages := by
  rcases main_ok_cases h with ⟨-, rfl⟩ | ⟨-, acts1, fs1, hjson, hrest⟩
  · rfl
  · have hfs1 : fs1.glob sourceImages = fs.glob sourceImages := by
      rcases copyJsonStep_cases hjson with ⟨-, -, rfl⟩ | ⟨c, -, -, -, rfl⟩
      · rfl
      · refine glob_setFile _ _ _ _ ?_
        rcases copy2Dest_json_forms fs with ⟨-, hcd⟩ | ⟨-, hcd⟩ <;> rw [hcd]
        · exact globChild_src_destJson
        · exact globChild_src_destJsonChild _
    rcases hrest with ⟨-, rfl⟩ | ⟨-, acts2, fs2, acts3, fs3, hens, hloop, rfl⟩
    · exact hfs1
    · have hfs2 : fs2.glob sourceImages = fs1.glob sourceImages := by
        rcases ensureDestImages_cases hens with ⟨-, -, rfl⟩ | ⟨-, -, hforms⟩
        · rfl
        · rcases hforms with ⟨-, rfl⟩ | ⟨-, rfl⟩
          · exact glob_setDir _ _ _ globChild_src_destImages
          · rw [glob_setDir _ _ _ globChild_src_destImages,
              glob_setDir _ _ _ globChild_src_website]
      show fs3.glob sourceImages = fs.glob sourceImages
      rw [copyImages_ok_glob hloop, hfs2, hfs1]

/-- When the source image directory is absent, a completed run writes at most
the json copy target. -/
theorem main_noImages_frame {fs : FS} {r : RunResult} (h : main fs = .ok r)
    (hsi : fs.pathExists sourceImages = false) (p : FPath)
    (h1 : p ≠ destJson) (h2 : p ≠ destJson ++ ["correct_answers.json"]) :
    r.fs.lookup p = fs.lookup p := by
  rcases main_ok_cases h with ⟨-, rfl⟩ | ⟨-, acts1, fs1, hjson, hrest⟩
  · rfl
  · have hfs1 : fs1.lookup p = fs.lookup p := by
      rcases copyJsonStep_cases hjson with ⟨-, -, rfl⟩ | ⟨c, -, -, -, rfl⟩
      · rfl
      · refine lookup_setFile_ne c ?_
        rcases copy2Dest_json_forms fs with ⟨-, hcd⟩ | ⟨-, hcd⟩ <;> rw [hcd]
        · exact h1
        · exact h2
    have hfs1src : fs1.lookup sourceImages = fs.lookup sourceImages := by
      rcases copyJsonStep_cases hjson with ⟨-, -, rfl⟩ | ⟨c, -, -, -, rfl⟩
      · rfl
      · exact lookup_setFile_ne c (by
          rcases copy2Dest_json_forms fs with ⟨-, hcd⟩ | ⟨-, hcd⟩ <;> rw [hcd]
          · exact (srcSide_frame_conds sourceImages (by simp [sourceImages, historiaDir])).1
          · exact (srcSide_frame_conds sourceImages (by simp [sourceImages, historiaDir])).2.1)
    have hsi1 : fs1.pathExists sourceImages = false := by
      rw [pathExists_congr hfs1src]
      exact hsi
    rcases hrest with ⟨-, rfl⟩ | ⟨hsi2, acts2, fs2, acts3, fs3, hens, hloop, rfl⟩
    · exact hfs1
    · rw [hsi1] at hsi2
      exact absurd hsi2 (by simp)

end UpdateHistoria

namespace UpdateHistoria

/-- The image phase (directory creation plus copy loop) changes no path
outside the website root, the destination image directory, and the possible
image copy targets. -/
theorem imagesPhase_preserves {fs1 fs2 fs3 : FS} {acts2 acts3 : List Action}
    (hens : ensureDestImages fs1 = some (acts2, fs2))
    (hloop : copyImages fs2 (fs2.glob sourceImages) = .ok (acts3, fs3))
    (p : FPath) (h2 : p ≠ websiteDir) (h3 : p ≠ destImages)
    (h4 : ∀ n, p ≠ destImages ++ [n]) (h5 : ∀ n, p ≠ destImages ++ [n, n]) :
    fs3.lookup p = fs1.lookup p := by
  have hfs2 : fs2.lookup p = fs1.lookup p := by
    rcases ensureDestImages_cases hens with ⟨-, -, rfl⟩ | ⟨-, -, hforms⟩
    · rfl
    · rcases hforms with ⟨-, rfl⟩ | ⟨-, rfl⟩
      · exact lookup_setDir_ne h3
      · rw [lookup_setDir_ne h3, lookup_setDir_ne h2]
  rw [copyImages_ok_lookup_other hloop p h4 h5, hfs2]

/-- The json phase plus the directory creation leave every `Historia`-side
path untouched. -/
theorem phases_src_lookup {fs fs1 fs2 : FS} {acts1 acts2 : List Action}
    (hjson : copyJsonStep fs = some (acts1, fs1))
    (hens : ensureDestImages fs1 = some (acts2, fs2))
    (p : FPath) (hp : p.head? = some "Historia") :
    fs2.lookup p = fs.lookup p := by
  obtain ⟨h1, h2, h3, h4, -, -⟩ := srcSide_frame_conds p hp
  have hfs1 : fs1.lookup p = fs.lookup p := by
    rcases copyJsonStep_cases hjson with ⟨-, -, rfl⟩ | ⟨c, -, -, -, rfl⟩
    · rfl
    · refine lookup_setFile_ne c ?_
      rcases copy2Dest_json_forms fs with ⟨-, hcd⟩ | ⟨-, hcd⟩ <;> rw [hcd]
      · exact h1
      · exact h2
  rcases ensureDestImages_cases hens with ⟨-, -, rfl⟩ | ⟨-, -, hforms⟩
  · exact hfs1
  · rcases hforms with ⟨-, rfl⟩ | ⟨-, rfl⟩
    · rw [lookup_setDir_ne h4, hfs1]
    · rw [lookup_setDir_ne h4, lookup_setDir_ne h3, hfs1]

/-- The json phase plus the directory creation do not change the listing of
the source image directory. -/
theorem phases_glob_src {fs fs1 fs2 : FS} {acts1 acts2 : List Action}
    (hjson : copyJsonStep fs = some (acts1, fs1))
    (hens : ensureDestImages fs1 = some (acts2, fs2)) :
    fs2.glob sourceImages = fs.glob sourceImages := by
  have hfs1 : fs1.glob sourceImages = fs.glob sourceImages := by
    rcases copyJsonStep_cases hjson with ⟨-, -, rfl⟩ | ⟨c, -, -, -, rfl⟩
    · rfl
    · refine glob_setFile _ _ _ _ ?_
      rcases copy2Dest_json_forms fs with ⟨-, hcd⟩ | ⟨-, hcd⟩ <;> rw [hcd]
      · exact globChild_src_destJson
      · exact globChild_src_destJsonChild _
  rcases ensureDestImages_cases hens with ⟨-, -, rfl⟩ | ⟨-, -, hforms⟩
  · exact hfs1
  · rcases hforms with ⟨-, rfl⟩ | ⟨-, rfl⟩
    · rw [glob_setDir _ _ _ globChild_src_destImages, hfs1]
    · rw [glob_setDir _ _ _ globChild_src_destImages,
        glob_setDir _ _ _ globChild_src_website, hfs1]

/-- The json phase plus the directory creation change the directory status of
no path other than the website root and the destination image directory. -/
theorem phases_isDir {fs fs1 fs2 : FS} {acts1 acts2 : List Action}
    (hjson : copyJsonStep fs = some (acts1, fs1))
    (hens : ensureDestImages fs1 = some (acts2, fs2))
    (q : FPath) (h4 : q ≠ destImages) (h3 : q ≠ websiteDir) :
    fs2.isDir q = fs.isDir q := by
  have hfs1 : fs1.isDir q = fs.isDir q := by
    rcases copyJsonStep_cases hjson with ⟨-, -, rfl⟩ | ⟨c, -, hnd, -, rfl⟩
    · rfl
    · exact isDir_setFile hnd q
  rcases ensureDestImages_cases hens with ⟨-, -, rfl⟩ | ⟨-, -, hforms⟩
  · exact hfs1
  · rcases hforms with ⟨-, rfl⟩ | ⟨-, rfl⟩
    · rw [isDir_setDir_ne q h4, hfs1]
    · rw [isDir_setDir_ne q h4, isDir_setDir_ne q h3, hfs1]

/-- A completed run changes the directory status of no path other than the
website root and the destination image directory. -/
theorem main_ok_isDir {fs : FS} {r : RunResult} (h : main fs = .ok r)
    (q : FPath) (h4 : q ≠ destImages) (h3 : q ≠ websiteDir) :
    r.fs.isDir q = fs.isDir q := by
  rcases main_ok_cases h with ⟨-, rfl⟩ | ⟨-, acts1, fs1, hjson, hrest⟩
  · rfl
  · have hfs1 : fs1.isDir q = fs.isDir q := by
      rcases copyJsonStep_cases hjson with ⟨-, -, rfl⟩ | ⟨c, -, hnd, -, rfl⟩
      · rfl
      · exact isDir_setFile hnd q
    rcases hrest with ⟨-, rfl⟩ | ⟨-, acts2, fs2, acts3, fs3, hens, hloop, rfl⟩
    · exact hfs1
    · have hfs2 : fs2.isDir q = fs1.isDir q := by
        rcases ensureDestImages_cases hens with ⟨-, -, rfl⟩ | ⟨-, -, hforms⟩
        · rfl
        · rcases hforms with ⟨-, rfl⟩ | ⟨-, rfl⟩
          · exact isDir_setDir_ne q h4
          · rw [isDir_setDir_ne q h4, isDir_setDir_ne q h3]
      show fs3.isDir q = fs.isDir q
      rw [copyImages_ok_isDir hloop q, hfs2, hfs1]

/-- A completed run whose source root exists finishes with exit code 0. -/
theorem main_exit_zero {fs : FS} {r : RunResult} (h : main fs = .ok r)
    (hh : fs.pathExists historiaDir = true) : r.exitCode = 0 := by
  rcases main_ok_cases h with ⟨hh2, rfl⟩ | ⟨-, acts1, fs1, -, hrest⟩
  · rw [hh] at hh2
    exact absurd hh2 (by simp)
  · rcases hrest with ⟨-, rfl⟩ | ⟨-, acts2, fs2, acts3, fs3, -, -, rfl⟩ <;> rfl

/-- If the json source path exists and the run completed, that path held a
regular file (a directory there would have crashed `shutil.copy2`). -/
theorem main_json_is_file {fs : FS} {r : RunResult} (h : main fs = .ok r)
    (hh : fs.pathExists historiaDir = true) (hj : fs.pathExists sourceJson = true) :
    ∃ c, fs.lookup sourceJson = some (Entry.file c) := by
  rcases main_ok_cases h with ⟨hh2, -⟩ | ⟨-, acts1, fs1, hjson, -⟩
  · rw [hh] at hh2
    exact absurd hh2 (by simp)
  · rcases copyJsonStep_cases hjson with ⟨hpe, -, -⟩ | ⟨c, hsrc, -, -, -⟩
    · rw [hj] at hpe
      exact absurd hpe (by simp)
    · exact ⟨c, hsrc⟩

/-- If the json source is a regular file and the json destination path does
not hold a directory, a completed run copies the source bytes to the json
destination and records the copy action. -/
theorem main_destJson_copied {fs : FS} {r : RunResult} {c : Content}
    (h : main fs = .ok r) (hh : fs.pathExists historiaDir = true)
    (hsrc : fs.lookup sourceJson = some (Entry.file c))
    (hnd : fs.isDir destJson = false) :
    r.fs.lookup destJson = some (Entry.file c)
    ∧ Action.copy sourceJson destJson ∈ r.trace := by
  have hcd : copy2Dest fs sourceJson destJson = destJson := copy2Dest_of_not_dir hnd
  rcases main_ok_cases h with ⟨hh2, -⟩ | ⟨-, acts1, fs1, hjson, hrest⟩
  · rw [hh] at hh2
    exact absurd hh2 (by simp)
  · rcases copyJsonStep_cases hjson with ⟨hpe, -, -⟩ | ⟨c2, hsrc2, -, rfl, rfl⟩
    · rw [pathExists_false_iff] at hpe
      rw [hsrc] at hpe
      exact absurd hpe (by simp)
    · obtain rfl : c = c2 := by
        rw [hsrc] at hsrc2
        exact Entry.file.inj (Option.some.inj hsrc2)
      rcases hrest with ⟨-, rfl⟩ | ⟨-, acts2, fs2, acts3, fs3, hens, hloop, rfl⟩
      · refine ⟨?_, ?_⟩
        · show (fs.setFile (copy2Dest fs sourceJson destJson) c).lookup destJson = _
          rw [hcd]
          exact lookup_setFile_self fs destJson c
        · show Action.copy sourceJson destJson ∈ [Action.copy sourceJson (copy2Dest fs sourceJson destJson)]
          rw [hcd]
          exact List.mem_singleton.mpr rfl
      · constructor
        · show fs3.lookup destJson = _
          rw [imagesPhase_preserves hens hloop destJson destJson_ne_websiteDir
            destJson_ne_destImages destJson_ne_destImg (fun n => destJson_ne_destImgChild n n)]
          rw [hcd]
          exact lookup_setFile_self fs destJson c
        · refine List.mem_append_left _ (List.mem_append_left _ ?_)
          rw [hcd]
          exact List.mem_singleton.mpr rfl

/-- If the json source is a regular file but a directory occupies the json
destination, a completed run copies the source bytes into that directory, at
the same-named path inside it, and leaves the directory entry itself alone. -/
theorem main_destJson_redirect {fs : FS} {r : RunResult} {c : Content}
    (h : main fs = .ok r) (hh : fs.pathExists historiaDir = true)
    (hsrc : fs.lookup sourceJson = some (Entry.file c))
    (hdir : fs.isDir destJson = true) :
    r.fs.lookup (destJson ++ ["correct_answers.json"]) = some (Entry.file c)
    ∧ r.fs.lookup destJson = fs.lookup destJson := by
  have hcd : copy2Dest fs sourceJson destJson = destJson ++ ["correct_answers.json"] := by
    rw [copy2Dest_of_dir hdir, basename_sourceJson]
  rcases main_ok_cases h with ⟨hh2, -⟩ | ⟨-, acts1, fs1, hjson, hrest⟩
  · rw [hh] at hh2
    exact absurd hh2 (by simp)
  · rcases copyJsonStep_cases hjson with ⟨hpe, -, -⟩ | ⟨c2, hsrc2, -, rfl, rfl⟩
    · rw [pathExists_false_iff] at hpe
      rw [hsrc] at hpe
      exact absurd hpe (by simp)
    · obtain rfl : c = c2 := by
        rw [hsrc] at hsrc2
        exact Entry.file.inj (Option.some.inj hsrc2)
      have hchild : (fs.setFile (copy2Dest fs sourceJson destJson) c).lookup
          (destJson ++ ["correct_answers.json"]) = some (Entry.file c) := by
        rw [hcd]
        exact lookup_setFile_self _ _ _
      have hself : (fs.setFile (copy2Dest fs sourceJson destJson) c).lookup destJson
          = fs.lookup destJson := by
        rw [hcd]
        exact lookup_setFile_ne c (destJson_ne_destJsonChild _)
      rcases hrest with ⟨-, rfl⟩ | ⟨-, acts2, fs2, acts3, fs3, hens, hloop, rfl⟩
      · exact ⟨hchild, hself⟩
      · constructor
        · show fs3.lookup _ = _
          rw [imagesPhase_preserves hens hloop _ (destJsonChild_ne_websiteDir _)
            (destJsonChild_ne_destImages _) (destJsonChild_ne_destImg _)
            (fun n => destJsonChild_ne_destImgChild _ n n)]
          exact hchild
        · show fs3.lookup destJson = _
          rw [imagesPhase_preserves hens hloop destJson destJson_ne_websiteDir
            destJson_ne_destImages destJson_ne_destImg (fun n => destJson_ne_destImgChild n n)]
          exact hself

/-- If the json source is absent, a completed run leaves the json destination
exactly as it was. -/
theorem main_destJson_skip {fs : FS} {r : RunResult} (h : main fs = .ok r)
    (hj : fs.pathExists sourceJson = false) :
    r.fs.lookup destJson = fs.lookup destJson := by
  rcases main_ok_cases h with ⟨-, rfl⟩ | ⟨-, acts1, fs1, hjson, hrest⟩
  · rfl
  · rcases copyJsonStep_cases hjson with ⟨-, -, rfl⟩ | ⟨c2, hsrc2, -, -, -⟩
    · rcases hrest with ⟨-, rfl⟩ | ⟨-, acts2, fs2, acts3, fs3, hens, hloop, rfl⟩
      · rfl
      · exact imagesPhase_preserves hens hloop destJson destJson_ne_websiteDir
          destJson_ne_destImages destJson_ne_destImg (fun n => destJson_ne_destImgChild n n)
    · rw [pathExists_false_iff] at hj
      rw [hsrc2] at hj
      exact absurd hj (by simp)

/-- When the json destination is not a directory or the json source is
absent, the same-named path inside the json destination is untouched by a
completed run. -/
theorem main_destJson_child_frame {fs : FS} {r : RunResult} (h : main fs = .ok r)
    (hcond : fs.isDir destJson = false ∨ fs.pathExists sourceJson = false) :
    r.fs.lookup (destJson ++ ["correct_answers.json"])
      = fs.lookup (destJson ++ ["correct_answers.json"]) := by
  rcases main_ok_cases h with ⟨-, rfl⟩ | ⟨-, acts1, fs1, hjson, hrest⟩
  · rfl
  · have hfs1 : fs1.lookup (destJson ++ ["correct_answers.json"])
        = fs.lookup (destJson ++ ["correct_answers.json"]) := by
      rcases copyJsonStep_cases hjson with ⟨-, -, rfl⟩ | ⟨c2, hsrc2, -, -, rfl⟩
      · rfl
      · rcases hcond with hnd | hpe
        · rw [copy2Dest_of_not_dir hnd]
          exact lookup_setFile_ne c2 (fun hc => destJson_ne_destJsonChild _ hc.symm)
        · rw [pathExists_false_iff] at hpe
          rw [hsrc2] at hpe
          exact absurd hpe (by simp)
    rcases hrest with ⟨-, rfl⟩ | ⟨-, acts2, fs2, acts3, fs3, hens, hloop, rfl⟩
    · exact hfs1
    · show fs3.lookup _ = _
      rw [imagesPhase_preserves hens hloop _ (destJsonChild_ne_websiteDir _)
        (destJsonChild_ne_destImages _) (destJsonChild_ne_destImg _)
        (fun n => destJsonChild_ne_destImgChild _ n n), hfs1]

end UpdateHistoria

namespace UpdateHistoria

/-- The json phase leaves the source image directory entry unchanged. -/
theorem jsonStep_src_images {fs fs1 : FS} {acts1 : List Action}
    (hjson : copyJsonStep fs = some (acts1, fs1)) :
    fs1.lookup sourceImages = fs.lookup sourceImages := by
  rcases copyJsonStep_cases hjson with ⟨-, -, rfl⟩ | ⟨c2, -, -, -, rfl⟩
  · rfl
  · refine lookup_setFile_ne c2 ?_
    rcases copy2Dest_json_forms fs with ⟨-, hcd⟩ | ⟨-, hcd⟩ <;> rw [hcd]
    · exact (srcSide_frame_conds sourceImages (by simp [sourceImages, historiaDir])).1
    · exact (srcSide_frame_conds sourceImages (by simp [sourceImages, historiaDir])).2.1

/-- Every regular file of the source image directory whose same-named
destination path is not a directory is copied there by a completed run: the
destination holds its bytes and the copy action is in the trace. -/
theorem main_image_copied {fs : FS} {r : RunResult} {n : String} {c : Content}
    (h : main fs = .ok r) (hh : fs.pathExists historiaDir = true)
    (hsi : fs.pathExists sourceImages = true)
    (hsrc : fs.lookup (sourceImages ++ [n]) = some (Entry.file c))
    (hnd : fs.isDir (destImages ++ [n]) = false) :
    r.fs.lookup (destImages ++ [n]) = some (Entry.file c)
    ∧ Action.copy (sourceImages ++ [n]) (destImages ++ [n]) ∈ r.trace := by
  rcases main_ok_cases h with ⟨hh2, -⟩ | ⟨-, acts1, fs1, hjson, hrest⟩
  · rw [hh] at hh2
    exact absurd hh2 (by simp)
  · rcases hrest with ⟨hsi2, -⟩ | ⟨-, acts2, fs2, acts3, fs3, hens, hloop, rfl⟩
    · rw [pathExists_congr (jsonStep_src_images hjson), hsi] at hsi2
      exact absurd hsi2 (by simp)
    · have hsrc2 : fs2.lookup (sourceImages ++ [n]) = some (Entry.file c) := by
        rw [phases_src_lookup hjson hens _ (by simp [sourceImages, historiaDir])]
        exact hsrc
      have hnd2 : fs2.isDir (destImages ++ [n]) = false := by
        rw [phases_isDir hjson hens _ (fun hc => destImages_ne_destImg n hc.symm)
          (fun hc => websiteDir_ne_destImg n hc.symm)]
        exact hnd
      obtain ⟨hl, hm⟩ := copyImages_ok_copied hloop n (mem_glob_of_lookup hsrc2) c hsrc2 hnd2
      exact ⟨hl, List.mem_append.mpr (Or.inr hm)⟩

/-- Every regular file of the source image directory whose same-named
destination path is occupied by a directory is copied inside that directory
by a completed run, and the directory entry itself stays as it was. -/
theorem main_image_redirect {fs : FS} {r : RunResult} {n : String} {c : Content}
    (h : main fs = .ok r) (hh : fs.pathExists historiaDir = true)
    (hsi : fs.pathExists sourceImages = true)
    (hsrc : fs.lookup (sourceImages ++ [n]) = some (Entry.file c))
    (hdir : fs.isDir (destImages ++ [n]) = true) :
    r.fs.lookup (destImages ++ [n, n]) = some (Entry.file c)
    ∧ r.fs.lookup (destImages ++ [n]) = fs.lookup (destImages ++ [n]) := by
  rcases main_ok_cases h with ⟨hh2, -⟩ | ⟨-, acts1, fs1, hjson, hrest⟩
  · rw [hh] at hh2
    exact absurd hh2 (by simp)
  · rcases hrest with ⟨hsi2, -⟩ | ⟨-, acts2, fs2, acts3, fs3, hens, hloop, rfl⟩
    · rw [pathExists_congr (jsonStep_src_images hjson), hsi] at hsi2
      exact absurd hsi2 (by simp)
    · have hsrc2 : fs2.lookup (sourceImages ++ [n]) = some (Entry.file c) := by
        rw [phases_src_lookup hjson hens _ (by simp [sourceImages, historiaDir])]
        exact hsrc
      have hdir2 : fs2.isDir (destImages ++ [n]) = true := by
        rw [phases_isDir hjson hens _ (fun hc => destImages_ne_destImg n hc.symm)
          (fun hc => websiteDir_ne_destImg n hc.symm)]
        exact hdir
      constructor
      · exact copyImages_ok_redirect hloop n (mem_glob_of_lookup hsrc2) c hsrc2 hdir2
      · have hfs1 : fs1.lookup (destImages ++ [n]) = fs.lookup (destImages ++ [n]) := by
          rcases copyJsonStep_cases hjson with ⟨-, -, rfl⟩ | ⟨c2, -, -, -, rfl⟩
          · rfl
          · refine lookup_setFile_ne c2 ?_
            rcases copy2Dest_json_forms fs with ⟨-, hcd⟩ | ⟨-, hcd⟩ <;> rw [hcd]
            · exact fun hc => destJson_ne_destImg n hc.symm
            · exact fun hc => destJsonChild_ne_destImg _ n hc.symm
        have hfs2 : fs2.lookup (destImages ++ [n]) = fs1.lookup (destImages ++ [n]) := by
          rcases ensureDestImages_cases hens with ⟨-, -, rfl⟩ | ⟨-, -, hforms⟩
          · rfl
          · rcases hforms with ⟨-, rfl⟩ | ⟨-, rfl⟩
            · exact lookup_setDir_ne (fun hc => destImages_ne_destImg n hc.symm)
            · rw [lookup_setDir_ne (fun hc => destImages_ne_destImg n hc.symm),
                lookup_setDir_ne (fun hc => websiteDir_ne_destImg n hc.symm)]
        show fs3.lookup _ = _
        rw [copyImages_ok_dir_frame hloop _ hdir2, hfs2, hfs1]

/-- The destination paths of an image whose same-named source is not a
regular file are untouched by a completed run. -/
theorem main_image_nonfile_frame {fs : FS} {r : RunResult} {n : String}
    (h : main fs = .ok r) (hf : fs.isFile (sourceImages ++ [n]) = false) :
    r.fs.lookup (destImages ++ [n]) = fs.lookup (destImages ++ [n])
    ∧ r.fs.lookup (destImages ++ [n, n]) = fs.lookup (destImages ++ [n, n]) := by
  rcases main_ok_cases h with ⟨-, rfl⟩ | ⟨-, acts1, fs1, hjson, hrest⟩
  · exact ⟨rfl, rfl⟩
  · have hfs1 : ∀ p : FPath, p ≠ destJson → p ≠ destJson ++ ["correct_answers.json"] →
        fs1.lookup p = fs.lookup p := by
      intro p hp1 hp2
      rcases copyJsonStep_cases hjson with ⟨-, -, rfl⟩ | ⟨c2, -, -, -, rfl⟩
      · rfl
      · refine lookup_setFile_ne c2 ?_
        rcases copy2Dest_json_forms fs with ⟨-, hcd⟩ | ⟨-, hcd⟩ <;> rw [hcd]
        · exact hp1
        · exact hp2
    rcases hrest with ⟨-, rfl⟩ | ⟨-, acts2, fs2, acts3, fs3, hens, hloop, rfl⟩
    · exact ⟨hfs1 _ (fun hc => destJson_ne_destImg n hc.symm)
        (fun hc => destJsonChild_ne_destImg _ n hc.symm),
        hfs1 _ (fun hc => destJson_ne_destImgChild n n hc.symm)
        (fun hc => destJsonChild_ne_destImgChild _ n n hc.symm)⟩
    · have hsrcstable : fs2.lookup (sourceImages ++ [n]) = fs.lookup (sourceImages ++ [n]) :=
        phases_src_lookup hjson hens _ (by simp [sourceImages, historiaDir])
      have hf2 : fs2.isFile (sourceImages ++ [n]) = false := by
        rw [isFile_congr hsrcstable]
        exact hf
      have hfs2 : ∀ p : FPath, p ≠ destImages → p ≠ websiteDir →
          fs2.lookup p = fs1.lookup p := by
        intro p hp4 hp3
        rcases ensureDestImages_cases hens with ⟨-, -, rfl⟩ | ⟨-, -, hforms⟩
        · rfl
        · rcases hforms with ⟨-, rfl⟩ | ⟨-, rfl⟩
          · exact lookup_setDir_ne hp4
          · rw [lookup_setDir_ne hp4, lookup_setDir_ne hp3]
      have hfs3 : ∀ p : FPath, (∀ k, fs2.isFile (sourceImages ++ [k]) = true →
          p ≠ destImages ++ [k] ∧ p ≠ destImages ++ [k, k]) →
          fs3.lookup p = fs2.lookup p := by
        intro p hp
        apply copyImages_ok_lookup hloop
        intro s d hd
        obtain ⟨k, -, hkfile, hrest2⟩ := copyImages_ok_acts hloop _ hd
        rcases hrest2 with ⟨-, ha⟩ | ⟨-, ha⟩
        · injection ha with ha1 ha2
          subst ha2
          exact (hp k hkfile).1
        · injection ha with ha1 ha2
          subst ha2
          exact (hp k hkfile).2
      constructor
      · show fs3.lookup _ = _
        rw [hfs3 _ ?_, hfs2 _ (fun hc => destImages_ne_destImg n hc.symm)
          (fun hc => websiteDir_ne_destImg n hc.symm),
          hfs1 _ (fun hc => destJson_ne_destImg n hc.symm)
          (fun hc => destJsonChild_ne_destImg _ n hc.symm)]
        intro k hkfile
        constructor
        · intro hc
          have hkn := destImg_inj hc
          subst hkn
          rw [hf2] at hkfile
          exact absurd hkfile (by simp)
        · exact destImg_ne_destImgChild n k k
      · show fs3.lookup _ = _
        rw [hfs3 _ ?_, hfs2 _ (fun hc => destImages_ne_destImgChild n n hc.symm)
          (fun hc => websiteDir_ne_destImgChild n n hc.symm),
          hfs1 _ (fun hc => destJson_ne_destImgChild n n hc.symm)
          (fun hc => destJsonChild_ne_destImgChild _ n n hc.symm)]
        intro k hkfile
        constructor
        · exact fun hc => destImg_ne_destImgChild k n n hc.symm
        · intro hc
          obtain ⟨hkn, -⟩ := destImgChild_inj hc
          subst hkn
          rw [hf2] at hkfile
          exact absurd hkfile (by simp)

/-- When the same-named destination of an image is not a directory, the
same-named path inside it is untouched by a completed run. -/
theorem main_image_child_dirfalse_frame {fs : FS} {r : RunResult} {n : String}
    (h : main fs = .ok r) (hnd : fs.isDir (destImages ++ [n]) = false) :
    r.fs.lookup (destImages ++ [n, n]) = fs.lookup (destImages ++ [n, n]) := by
  rcases main_ok_cases h with ⟨-, rfl⟩ | ⟨-, acts1, fs1, hjson, hrest⟩
  · rfl
  · have hfs1 : fs1.lookup (destImages ++ [n, n]) = fs.lookup (destImages ++ [n, n]) := by
      rcases copyJsonStep_cases hjson with ⟨-, -, rfl⟩ | ⟨c2, -, -, -, rfl⟩
      · rfl
      · refine lookup_setFile_ne c2 ?_
        rcases copy2Dest_json_forms fs with ⟨-, hcd⟩ | ⟨-, hcd⟩ <;> rw [hcd]
        · exact fun hc => destJson_ne_destImgChild n n hc.symm
        · exact fun hc => destJsonChild_ne_destImgChild _ n n hc.symm
    rcases hrest with ⟨-, rfl⟩ | ⟨-, acts2, fs2, acts3, fs3, hens, hloop, rfl⟩
    · exact hfs1
    · have hnd2 : fs2.isDir (destImages ++ [n]) = false := by
        rw [phases_isDir hjson hens _ (fun hc => destImages_ne_destImg n hc.symm)
          (fun hc => websiteDir_ne_destImg n hc.symm)]
        exact hnd
      have hfs2 : fs2.lookup (destImages ++ [n, n]) = fs1.lookup (destImages ++ [n, n]) := by
        rcases ensureDestImages_cases hens with ⟨-, -, rfl⟩ | ⟨-, -, hforms⟩
        · rfl
        · rcases hforms with ⟨-, rfl⟩ | ⟨-, rfl⟩
          · exact lookup_setDir_ne (fun hc => destImages_ne_destImgChild n n hc.symm)
          · rw [lookup_setDir_ne (fun hc => destImages_ne_destImgChild n n hc.symm),
              lookup_setDir_ne (fun hc => websiteDir_ne_destImgChild n n hc.symm)]
      have hfs3 : fs3.lookup (destImages ++ [n, n]) = fs2.lookup (destImages ++ [n, n]) := by
        apply copyImages_ok_lookup hloop
        intro s d hd
        obtain ⟨k, -, -, hrest2⟩ := copyImages_ok_acts hloop _ hd
        rcases hrest2 with ⟨-, ha⟩ | ⟨hkdir, ha⟩
        · injection ha with ha1 ha2
          subst ha2
          exact fun hc => destImg_ne_destImgChild k n n hc.symm
        · injection ha with ha1 ha2
          subst ha2
          intro hc
          obtain ⟨hkn, -⟩ := destImgChild_inj hc
          subst hkn
          rw [hnd2] at hkdir
          exact absurd hkdir (by simp)
      show fs3.lookup _ = _
      rw [hfs3, hfs2, hfs1]

end UpdateHistoria

namespace UpdateHistoria

/-- After a completed run whose source root and source image directory exist,
the destination image directory exists. -/
theorem main_destImages_exists {fs : FS} {r : RunResult} (h : main fs = .ok r)
    (hh : fs.pathExists historiaDir = true) (hsi : fs.pathExists sourceImages = true) :
    r.fs.pathExists destImages = true := by
  rcases main_ok_cases h with ⟨hh2, -⟩ | ⟨-, acts1, fs1, hjson, hrest⟩
  · rw [hh] at hh2
    exact absurd hh2 (by simp)
  · rcases hrest with ⟨hsi2, -⟩ | ⟨-, acts2, fs2, acts3, fs3, hens, hloop, rfl⟩
    · rw [pathExists_congr (jsonStep_src_images hjson), hsi] at hsi2
      exact absurd hsi2 (by simp)
    · have hloopframe : fs3.lookup destImages = fs2.lookup destImages :=
        copyImages_ok_lookup_other hloop destImages destImages_ne_destImg
          (fun n => destImages_ne_destImgChild n n)
      show fs3.pathExists destImages = true
      rw [pathExists_congr hloopframe]
      rcases ensureDestImages_cases hens with ⟨hex, -, rfl⟩ | ⟨-, -, hforms⟩
      · exact hex
      · rcases hforms with ⟨-, rfl⟩ | ⟨-, rfl⟩ <;>
          (unfold FS.pathExists; rw [lookup_setDir_self]; rfl)

/-- When the destination image directory already exists, a completed run
leaves its entry unchanged. -/
theorem main_destImages_preserved {fs : FS} {r : RunResult} (h : main fs = .ok r)
    (hd : fs.pathExists destImages = true) :
    r.fs.lookup destImages = fs.lookup destImages := by
  rcases main_ok_cases h with ⟨-, rfl⟩ | ⟨-, acts1, fs1, hjson, hrest⟩
  · rfl
  · have hfs1 : fs1.lookup destImages = fs.lookup destImages := by
      rcases copyJsonStep_cases hjson with ⟨-, -, rfl⟩ | ⟨c2, -, -, -, rfl⟩
      · rfl
      · refine lookup_setFile_ne c2 ?_
        rcases copy2Dest_json_forms fs with ⟨-, hcd⟩ | ⟨-, hcd⟩ <;> rw [hcd]
        · exact fun hc => destJson_ne_destImages hc.symm
        · exact fun hc => destJsonChild_ne_destImages _ hc.symm
    rcases hrest with ⟨-, rfl⟩ | ⟨-, acts2, fs2, acts3, fs3, hens, hloop, rfl⟩
    · exact hfs1
    · rcases ensureDestImages_cases hens with ⟨-, -, rfl⟩ | ⟨habs, -, -⟩
      · show fs3.lookup _ = _
        rw [copyImages_ok_lookup_other hloop destImages destImages_ne_destImg
          (fun n => destImages_ne_destImgChild n n), hfs1]
      · rw [hfs1] at habs
        have : fs.pathExists destImages = false := pathExists_false_iff.mpr habs
        rw [hd] at this
        exact absurd this (by simp)

/-- When the destination image directory already exists, a completed run
leaves the website root entry unchanged. -/
theorem main_website_preserved {fs : FS} {r : RunResult} (h : main fs = .ok r)
    (hd : fs.pathExists destImages = true) :
    r.fs.lookup websiteDir = fs.lookup websiteDir := by
  rcases main_ok_cases h with ⟨-, rfl⟩ | ⟨-, acts1, fs1, hjson, hrest⟩
  · rfl
  · have hfs1 : fs1.lookup websiteDir = fs.lookup websiteDir := by
      rcases copyJsonStep_cases hjson with ⟨-, -, rfl⟩ | ⟨c2, -, -, -, rfl⟩
      · rfl
      · refine lookup_setFile_ne c2 ?_
        rcases copy2Dest_json_forms fs with ⟨-, hcd⟩ | ⟨-, hcd⟩ <;> rw [hcd]
        · exact fun hc => destJson_ne_websiteDir hc.symm
        · exact fun hc => destJsonChild_ne_websiteDir _ hc.symm
    have hfs1' : fs1.lookup destImages = fs.lookup destImages := by
      rcases copyJsonStep_cases hjson with ⟨-, -, rfl⟩ | ⟨c2, -, -, -, rfl⟩
      · rfl
      · refine lookup_setFile_ne c2 ?_
        rcases copy2Dest_json_forms fs with ⟨-, hcd⟩ | ⟨-, hcd⟩ <;> rw [hcd]
        · exact fun hc => destJson_ne_destImages hc.symm
        · exact fun hc => destJsonChild_ne_destImages _ hc.symm
    rcases hrest with ⟨-, rfl⟩ | ⟨-, acts2, fs2, acts3, fs3, hens, hloop, rfl⟩
    · exact hfs1
    · rcases ensureDestImages_cases hens with ⟨-, -, rfl⟩ | ⟨habs, -, -⟩
      · show fs3.lookup _ = _
        rw [copyImages_ok_lookup_other hloop websiteDir websiteDir_ne_destImg
          (fun n => websiteDir_ne_destImgChild n n), hfs1]
      · rw [hfs1'] at habs
        have : fs.pathExists destImages = false := pathExists_false_iff.mpr habs
        rw [hd] at this
        exact absurd this (by simp)

/-- Every copy action of a completed run reads either the json source or an
immediate regular-file child of the source image directory, listed by the
glob; nothing below a subdirectory is ever a copy source. -/
theorem main_trace_srcs {fs : FS} {r : RunResult} (h : main fs = .ok r) :
    ∀ s d, Action.copy s d ∈ r.trace →
      s = sourceJson
      ∨ ∃ n, n ∈ fs.glob sourceImages ∧ fs.isFile (sourceImages ++ [n]) = true
          ∧ s = sourceImages ++ [n] := by
  rcases main_ok_cases h with ⟨-, rfl⟩ | ⟨-, acts1, fs1, hjson, hrest⟩
  · intro s d hd
    simp at hd
  · have hacts1 : ∀ s d, Action.copy s d ∈ acts1 → s = sourceJson := by
      rcases copyJsonStep_cases hjson with ⟨-, rfl, -⟩ | ⟨c2, -, -, rfl, -⟩
      · intro s d hd
        simp at hd
      · intro s d hd
        rw [List.mem_singleton] at hd
        exact (Action.copy.inj hd).1
    rcases hrest with ⟨-, rfl⟩ | ⟨-, acts2, fs2, acts3, fs3, hens, hloop, rfl⟩
    · intro s d hd
      exact Or.inl (hacts1 s d hd)
    · intro s d hd
      rcases List.mem_append.mp hd with hd12 | hd3
      · rcases List.mem_append.mp hd12 with hd1 | hd2
        · exact Or.inl (hacts1 s d hd1)
        · rcases ensureDestImages_cases hens with ⟨-, rfl, -⟩ | ⟨-, rfl, -⟩
          · simp at hd2
          · rw [List.mem_singleton] at hd2
            exact absurd hd2 (by simp)
      · obtain ⟨n, hnmem, hnfile, hrest2⟩ := copyImages_ok_acts hloop _ hd3
        have hsrcl : fs2.lookup (sourceImages ++ [n]) = fs.lookup (sourceImages ++ [n]) :=
          phases_src_lookup hjson hens _ (by simp [sourceImages, historiaDir])
        have hglob : n ∈ fs.glob sourceImages := by
          rwa [phases_glob_src hjson hens] at hnmem
        have hfile : fs.isFile (sourceImages ++ [n]) = true := by
          rwa [isFile_congr hsrcl] at hnfile
        rcases hrest2 with ⟨-, ha⟩ | ⟨-, ha⟩ <;>
          (injection ha with ha1 ha2; exact Or.inr ⟨n, hglob, hfile, ha1⟩)

/-- Any path that exists before a completed run and is not the destination of
one of its copy actions keeps its entry (in particular it is not deleted). -/
theorem main_preserves_untargeted {fs : FS} {r : RunResult} (h : main fs = .ok r)
    (p : FPath) (hex : fs.pathExists p = true)
    (hp : ∀ s d, Action.copy s d ∈ r.trace → p ≠ d) :
    r.fs.lookup p = fs.lookup p := by
  rcases main_ok_cases h with ⟨-, rfl⟩ | ⟨-, acts1, fs1, hjson, hrest⟩
  · rfl
  · rcases hrest with ⟨-, rfl⟩ | ⟨-, acts2, fs2, acts3, fs3, hens, hloop, rfl⟩
    · rcases copyJsonStep_cases hjson with ⟨-, -, rfl⟩ | ⟨c2, -, -, rfl, rfl⟩
      · rfl
      · exact lookup_setFile_ne c2
          (hp sourceJson (copy2Dest fs sourceJson destJson) (List.mem_singleton.mpr rfl))
    · have hfs1 : fs1.lookup p = fs.lookup p := by
        rcases copyJsonStep_cases hjson with ⟨-, -, rfl⟩ | ⟨c2, -, -, rfl, rfl⟩
        · rfl
        · exact lookup_setFile_ne c2 (hp sourceJson (copy2Dest fs sourceJson destJson)
            (List.mem_append.mpr (Or.inl (List.mem_append.mpr
              (Or.inl (List.mem_singleton.mpr rfl))))))
      have hex1 : ∃ e, fs1.lookup p = some e := by
        rw [hfs1, ← pathExists_iff]
        exact hex
      have hfs2 : fs2.lookup p = fs1.lookup p := by
        rcases ensureDestImages_cases hens with ⟨-, -, rfl⟩ | ⟨habs, -, hforms⟩
        · rfl
        · have hpd : p ≠ destImages := by
            intro hc
            subst hc
            obtain ⟨e, he⟩ := hex1
            rw [habs] at he
            exact absurd he (by simp)
          rcases hforms with ⟨-, rfl⟩ | ⟨hweb, rfl⟩
          · exact lookup_setDir_ne hpd
          · have hpw : p ≠ websiteDir := by
              intro hc
              subst hc
              obtain ⟨e, he⟩ := hex1
              rw [hweb] at he
              exact absurd he (by simp)
            rw [lookup_setDir_ne hpd, lookup_setDir_ne hpw]
      have hfs3 : fs3.lookup p = fs2.lookup p := by
        apply copyImages_ok_lookup hloop
        intro s d hd
        exact hp s d (List.mem_append.mpr (Or.inr hd))
      show fs3.lookup p = fs.lookup p
      rw [hfs3, hfs2, hfs1]

end UpdateHistoria

namespace UpdateHistoria

/-! ### Claim theorems -/

/-- C1: if the source root directory `Historia` does not exist, the process
exits with code 1 and performs no copies: the action trace is empty and the
filesystem is returned unchanged, so no destination file is created,
modified, or overwritten. -/
theorem missing_source_root_fails_without_copies (fs : FS)
    (h : fs.pathExists historiaDir = false) :
    main fs = .ok ⟨[], fs, 1⟩ := by
  unfold main
  rw [if_neg (by rw [h]; simp)]

/-- Witness for C1 at the empty filesystem. -/
theorem missing_source_root_fails_without_copies_witness :
    FS.pathExists [] historiaDir = false
    ∧ main ([] : FS) = .ok ⟨[], [], 1⟩ :=
  ⟨rfl, missing_source_root_fails_without_copies [] rfl⟩

/-- C2 (amended): if the answers artifact `correct_answers.json` exists in
the source root and no directory occupies the destination answers path, then
after a completed run the destination root holds a same-named file whose
byte content is identical to the content of the source file.  (With a
directory there, `shutil.copy2` copies into it instead of overwriting it.) -/
theorem answers_artifact_copied_byte_identical (fs : FS) (r : RunResult)
    (hh : fs.pathExists historiaDir = true)
    (hj : fs.pathExists sourceJson = true)
    (hnd : fs.isDir destJson = false)
    (hok : main fs = .ok r) :
    r.fs.content destJson = fs.content sourceJson
    ∧ (r.fs.content destJson).isSome = true := by
  obtain ⟨c, hsrc⟩ := main_json_is_file hok hh hj
  obtain ⟨hdst, -⟩ := main_destJson_copied hok hh hsrc hnd
  rw [content_of_lookup hdst, content_of_lookup hsrc]
  exact ⟨rfl, rfl⟩

/-- C3 (amended): if the source image directory exists, every regular file it
lists whose same-named destination path is not occupied by a directory is
present in the destination image directory with the same name and byte
content after a completed run (with a directory there, the copy lands inside
it); entries that are subdirectories are not recursed into and contribute no
copies: every copy reads the json source or an immediate regular-file child
of the source image directory. -/
theorem image_files_copied_no_recursion (fs : FS) (r : RunResult)
    (hh : fs.pathExists historiaDir = true)
    (hsi : fs.pathExists sourceImages = true)
    (hok : main fs = .ok r) :
    (∀ n ∈ fs.glob sourceImages, fs.isFile (sourceImages ++ [n]) = true →
      fs.isDir (destImages ++ [n]) = false →
      r.fs.content (destImages ++ [n]) = fs.content (sourceImages ++ [n])
      ∧ (r.fs.content (destImages ++ [n])).isSome = true)
    ∧ (∀ s d, Action.copy s d ∈ r.trace →
        s = sourceJson
        ∨ ∃ n, fs.isFile (sourceImages ++ [n]) = true ∧ s = sourceImages ++ [n]) := by
  constructor
  · intro n hn hfile hnd
    obtain ⟨c, hsrc⟩ := isFile_iff.mp hfile
    obtain ⟨hdst, -⟩ := main_image_copied hok hh hsi hsrc hnd
    rw [content_of_lookup hdst, content_of_lookup hsrc]
    exact ⟨rfl, rfl⟩
  · intro s d hd
    rcases main_trace_srcs hok s d hd with rfl | ⟨n, -, hfile, rfl⟩
    · exact Or.inl rfl
    · exact Or.inr ⟨n, hfile, rfl⟩

/-- C4 (amended): every regular file of the source image directory, without
exception and in particular regardless of whether its name begins with a
dot, is copied to its same-named destination by a completed run, provided no
directory occupies that destination (with a directory there, the copy lands
inside it instead). -/
theorem all_image_files_copied_including_hidden (fs : FS) (r : RunResult)
    (hh : fs.pathExists historiaDir = true)
    (hsi : fs.pathExists sourceImages = true)
    (hok : main fs = .ok r) :
    ∀ n, fs.isFile (sourceImages ++ [n]) = true →
      fs.isDir (destImages ++ [n]) = false →
      Action.copy (sourceImages ++ [n]) (destImages ++ [n]) ∈ r.trace
      ∧ r.fs.content (destImages ++ [n]) = fs.content (sourceImages ++ [n]) := by
  intro n hfile hnd
  obtain ⟨c, hsrc⟩ := isFile_iff.mp hfile
  obtain ⟨hdst, hmem⟩ := main_image_copied hok hh hsi hsrc hnd
  rw [content_of_lookup hdst, content_of_lookup hsrc]
  exact ⟨hmem, rfl⟩

/-- C5: when the source root exists, a completed run exits with code 0 even
when sub-items are missing, and when the answers artifact is absent the
destination answers file is left exactly as it was (not created when absent,
unchanged when present). -/
theorem missing_subitems_recoverable (fs : FS) (r : RunResult)
    (hh : fs.pathExists historiaDir = true)
    (hok : main fs = .ok r) :
    r.exitCode = 0
    ∧ (fs.pathExists sourceJson = false →
        r.fs.lookup destJson = fs.lookup destJson) :=
  ⟨main_exit_zero hok hh, fun hj => main_destJson_skip hok hj⟩

/-- C6: if the source image directory exists and the destination image
directory does not, a completed run creates the destination directory, and
the creation action precedes every copy into that directory in the trace: no
image file copy is attempted while the directory is absent. -/
theorem dest_image_dir_created_before_copies (fs : FS) (r : RunResult)
    (hh : fs.pathExists historiaDir = true)
    (hsi : fs.pathExists sourceImages = true)
    (hnd : fs.pathExists destImages = false)
    (hok : main fs = .ok r) :
    ∃ l1 l2, r.trace = l1 ++ Action.mkdirDir destImages :: l2
      ∧ (∀ s d, Action.copy s d ∈ l1 → ∀ n, d ≠ destImages ++ [n])
      ∧ r.fs.isDir destImages = true := by
  rcases main_ok_cases hok with ⟨hh2, -⟩ | ⟨-, acts1, fs1, hjson, hrest⟩
  · rw [hh] at hh2
    exact absurd hh2 (by simp)
  · have hfs1dest : fs1.lookup destImages = fs.lookup destImages := by
      rcases copyJsonStep_cases hjson with ⟨-, -, rfl⟩ | ⟨c2, -, -, -, rfl⟩
      · rfl
      · refine lookup_setFile_ne c2 ?_
        rcases copy2Dest_json_forms fs with ⟨-, hcd⟩ | ⟨-, hcd⟩ <;> rw [hcd]
        · exact fun hc => destJson_ne_destImages hc.symm
        · exact fun hc => destJsonChild_ne_destImages _ hc.symm
    rcases hrest with ⟨hsi2, -⟩ | ⟨-, acts2, fs2, acts3, fs3, hens, hloop, rfl⟩
    · rw [pathExists_congr (jsonStep_src_images hjson), hsi] at hsi2
      exact absurd hsi2 (by simp)
    · rcases ensureDestImages_cases hens with ⟨hex, -, -⟩ | ⟨-, hacts2, hforms⟩
      · rw [pathExists_congr hfs1dest, hnd] at hex
        exact absurd hex (by simp)
      · subst hacts2
        have hdirset : fs2.lookup destImages = some Entry.dir := by
          rcases hforms with ⟨-, rfl⟩ | ⟨-, rfl⟩ <;> exact lookup_setDir_self _ _
        refine ⟨acts1, acts3, ?_, ?_, ?_⟩
        · show (acts1 ++ [Action.mkdirDir destImages]) ++ acts3 = _
          rw [List.append_assoc, List.singleton_append]
        · intro s d hd n
          rcases copyJsonStep_cases hjson with ⟨-, rfl, -⟩ | ⟨c2, -, -, rfl, -⟩
          · simp at hd
          · rw [List.mem_singleton] at hd
            have h2d := (Action.copy.inj hd).2
            subst h2d
            rcases copy2Dest_json_forms fs with ⟨-, hcd⟩ | ⟨-, hcd⟩ <;> rw [hcd]
            · exact destJson_ne_destImg n
            · exact destJsonChild_ne_destImg _ n
        · show fs3.isDir destImages = true
          rw [isDir_iff, copyImages_ok_lookup_other hloop destImages destImages_ne_destImg
            (fun n => destImages_ne_destImgChild n n)]
          exact hdirset

/-- C7: running the tool twice in succession leaves the destination in the
same final state as running it once: the filesystems after one and after two
completed runs agree on the entry at every path, so no file content differs
and the set of existing files is the same. -/
theorem rerun_idempotent (fs : FS) (r1 r2 : RunResult)
    (h1 : main fs = .ok r1) (h2 : main r1.fs = .ok r2) :
    ∀ p, r2.fs.lookup p = r1.fs.lookup p := by
  intro p
  by_cases hh : fs.pathExists historiaDir = true
  · have hsrcJ : r1.fs.lookup sourceJson = fs.lookup sourceJson :=
      main_src_lookup h1 sourceJson (by simp [sourceJson, historiaDir])
    have hsrcI : r1.fs.lookup sourceImages = fs.lookup sourceImages :=
      main_src_lookup h1 sourceImages (by simp [sourceImages, historiaDir])
    have hhist1 : r1.fs.pathExists historiaDir = true := by
      rw [pathExists_congr (main_src_lookup h1 historiaDir (by simp [historiaDir]))]
      exact hh
    by_cases hpj : p = destJson
    · subst hpj
      cases hje : fs.pathExists sourceJson with
      | false =>
        exact main_destJson_skip h2 (by rw [pathExists_congr hsrcJ]; exact hje)
      | true =>
        obtain ⟨c, hsrc⟩ := main_json_is_file h1 hh hje
        cases hdd : fs.isDir destJson with
        | false =>
          obtain ⟨hd1, -⟩ := main_destJson_copied h1 hh hsrc hdd
          obtain ⟨hd2, -⟩ := main_destJson_copied h2 hhist1 (by rw [hsrcJ]; exact hsrc)
            (isDir_false_of_file hd1)
          rw [hd1, hd2]
        | true =>
          obtain ⟨-, hd1⟩ := main_destJson_redirect h1 hh hsrc hdd
          have hdd1 : r1.fs.isDir destJson = true := by
            rw [isDir_congr hd1]
            exact hdd
          obtain ⟨-, hd2⟩ := main_destJson_redirect h2 hhist1 (by rw [hsrcJ]; exact hsrc) hdd1
          exact hd2
    · by_cases hpjc : p = destJson ++ ["correct_answers.json"]
      · subst hpjc
        cases hje : fs.pathExists sourceJson with
        | false =>
          exact main_destJson_child_frame h2
            (Or.inr (by rw [pathExists_congr hsrcJ]; exact hje))
        | true =>
          obtain ⟨c, hsrc⟩ := main_json_is_file h1 hh hje
          cases hdd : fs.isDir destJson with
          | false =>
            obtain ⟨hd1, -⟩ := main_destJson_copied h1 hh hsrc hdd
            exact main_destJson_child_frame h2 (Or.inl (isDir_false_of_file hd1))
          | true =>
            obtain ⟨hc1, hd1⟩ := main_destJson_redirect h1 hh hsrc hdd
            have hdd1 : r1.fs.isDir destJson = true := by
              rw [isDir_congr hd1]
              exact hdd
            obtain ⟨hc2, -⟩ := main_destJson_redirect h2 hhist1 (by rw [hsrcJ]; exact hsrc) hdd1
            rw [hc1, hc2]
      · by_cases hpic : ∃ k, p = destImages ++ [k, k]
        · obtain ⟨n, rfl⟩ := hpic
          cases hsi : fs.pathExists sourceImages with
          | false =>
            exact main_noImages_frame h2 (by rw [pathExists_congr hsrcI]; exact hsi) _
              (fun hc => destJson_ne_destImgChild n n hc.symm)
              (fun hc => destJsonChild_ne_destImgChild _ n n hc.symm)
          | true =>
            cases hf : fs.isFile (sourceImages ++ [n]) with
            | false =>
              have hf1 : r1.fs.isFile (sourceImages ++ [n]) = false := by
                rw [isFile_congr (main_src_lookup h1 _ (by simp [sourceImages, historiaDir]))]
                exact hf
              exact (main_image_nonfile_frame h2 hf1).2
            | true =>
              obtain ⟨c, hsrc⟩ := isFile_iff.mp hf
              cases hdd : fs.isDir (destImages ++ [n]) with
              | false =>
                have hdd1 : r1.fs.isDir (destImages ++ [n]) = false := by
                  rw [main_ok_isDir h1 _ (fun hc => destImages_ne_destImg n hc.symm)
                    (fun hc => websiteDir_ne_destImg n hc.symm)]
                  exact hdd
                exact main_image_child_dirfalse_frame h2 hdd1
              | true =>
                obtain ⟨hc1, -⟩ := main_image_redirect h1 hh hsi hsrc hdd
                have hsi1 : r1.fs.pathExists sourceImages = true := by
                  rw [pathExists_congr hsrcI]
                  exact hsi
                have hsrc1 : r1.fs.lookup (sourceImages ++ [n]) = some (Entry.file c) := by
                  rw [main_src_lookup h1 _ (by simp [sourceImages, historiaDir])]
                  exact hsrc
                have hdd1 : r1.fs.isDir (destImages ++ [n]) = true := by
                  rw [main_ok_isDir h1 _ (fun hc => destImages_ne_destImg n hc.symm)
                    (fun hc => websiteDir_ne_destImg n hc.symm)]
                  exact hdd
                obtain ⟨hc2, -⟩ := main_image_redirect h2 hhist1 hsi1 hsrc1 hdd1
                rw [hc1, hc2]
        · by_cases hpi : ∃ n, p = destImages ++ [n]
          · obtain ⟨n, rfl⟩ := hpi
            cases hsi : fs.pathExists sourceImages with
            | false =>
              exact main_noImages_frame h2 (by rw [pathExists_congr hsrcI]; exact hsi) _
                (fun hc => destJson_ne_destImg n hc.symm)
                (fun hc => destJsonChild_ne_destImg _ n hc.symm)
            | true =>
              cases hf : fs.isFile (sourceImages ++ [n]) with
              | false =>
                have hf1 : r1.fs.isFile (sourceImages ++ [n]) = false := by
                  rw [isFile_congr (main_src_lookup h1 _ (by simp [sourceImages, historiaDir]))]
                  exact hf
                exact (main_image_nonfile_frame h2 hf1).1
              | true =>
                obtain ⟨c, hsrc⟩ := isFile_iff.mp hf
                have hsi1 : r1.fs.pathExists sourceImages = true := by
                  rw [pathExists_congr hsrcI]
                  exact hsi
                have hsrc1 : r1.fs.lookup (sourceImages ++ [n]) = some (Entry.file c) := by
                  rw [main_src_lookup h1 _ (by simp [sourceImages, historiaDir])]
                  exact hsrc
                cases hdd : fs.isDir (destImages ++ [n]) with
                | false =>
                  obtain ⟨hd1, -⟩ := main_image_copied h1 hh hsi hsrc hdd
                  obtain ⟨hd2, -⟩ := main_image_copied h2 hhist1 hsi1 hsrc1
                    (isDir_false_of_file hd1)
                  rw [hd1, hd2]
                | true =>
                  have hdd1 : r1.fs.isDir (destImages ++ [n]) = true := by
                    rw [main_ok_isDir h1 _ (fun hc => destImages_ne_destImg n hc.symm)
                      (fun hc => websiteDir_ne_destImg n hc.symm)]
                    exact hdd
                  exact (main_image_redirect h2 hhist1 hsi1 hsrc1 hdd1).2
          · by_cases hpd : p = destImages
            · subst hpd
              cases hsi : fs.pathExists sourceImages with
              | false =>
                exact main_noImages_frame h2 (by rw [pathExists_congr hsrcI]; exact hsi) _
                  (Ne.symm destJson_ne_destImages)
                  (fun hc => destJsonChild_ne_destImages _ hc.symm)
              | true =>
                exact main_destImages_preserved h2 (main_destImages_exists h1 hh hsi)
            · by_cases hpw : p = websiteDir
              · subst hpw
                cases hsi : fs.pathExists sourceImages with
                | false =>
                  exact main_noImages_frame h2 (by rw [pathExists_congr hsrcI]; exact hsi) _
                    (Ne.symm destJson_ne_websiteDir)
                    (fun hc => destJsonChild_ne_websiteDir _ hc.symm)
                | true =>
                  exact main_website_preserved h2 (main_destImages_exists h1 hh hsi)
              · exact main_frame_all h2 p hpj hpjc hpw hpd
                  (fun n hc => hpi ⟨n, hc⟩) (fun n hc => hpic ⟨n, hc⟩)
  · rcases main_ok_cases h1 with ⟨-, rfl⟩ | ⟨hh2, -⟩
    · rcases main_ok_cases h2 with ⟨-, rfl⟩ | ⟨hh2, -⟩
      · rfl
      · exact absurd hh2 hh
    · exact absurd hh2 hh

/-- C8 (amended): every copied item overwrites any pre-existing non-directory
destination entry: with no other assumption on the prior destination entry,
after a completed run the json destination holds the bytes of the json
source and each image destination holds the bytes of its source, provided no
directory occupies the destination path (a directory there is left in place
and the copy lands inside it). -/
theorem existing_destinations_overwritten (fs : FS) (r : RunResult)
    (hh : fs.pathExists historiaDir = true)
    (hok : main fs = .ok r) :
    (∀ c, fs.isDir destJson = false → fs.lookup sourceJson = some (Entry.file c) →
      r.fs.lookup destJson = some (Entry.file c))
    ∧ (fs.pathExists sourceImages = true →
      ∀ n c, fs.isDir (destImages ++ [n]) = false →
        fs.lookup (sourceImages ++ [n]) = some (Entry.file c) →
        r.fs.lookup (destImages ++ [n]) = some (Entry.file c)) :=
  ⟨fun c hnd hsrc => (main_destJson_copied hok hh hsrc hnd).1,
   fun hsi n c hnd hsrc => (main_image_copied hok hh hsi hsrc hnd).1⟩

/-- C9: the tool deletes nothing: every path that exists before a completed
run and is not the destination of one of the run's copy actions still holds
exactly its old entry afterwards. -/
theorem no_stale_destination_deleted (fs : FS) (r : RunResult)
    (hok : main fs = .ok r) :
    ∀ p, fs.pathExists p = true →
      (∀ s d, Action.copy s d ∈ r.trace → p ≠ d) →
      r.fs.lookup p = fs.lookup p :=
  fun p hex hp => main_preserves_untargeted hok p hex hp

/-- C10: the fatal check tests only existence: when a regular file occupies
the source root path (so that neither sub-item path exists beneath it), the
process does not exit with code 1 but completes with exit code 0, performs
no actions, and copies nothing. -/
theorem source_root_nondirectory_completes_zero (fs : FS)
    (h1 : fs.isFile historiaDir = true)
    (h2 : fs.lookup sourceJson = none)
    (h3 : fs.lookup sourceImages = none) :
    main fs = .ok ⟨[], fs, 0⟩ := by
  obtain ⟨c, hc⟩ := isFile_iff.mp h1
  have hjson : copyJsonStep fs = some ([], fs) := by
    unfold copyJsonStep
    rw [if_neg (by unfold FS.pathExists; rw [h2]; simp)]
  have hpi : fs.pathExists sourceImages = false := by
    unfold FS.pathExists
    rw [h3]
    rfl
  unfold main
  rw [if_pos (show fs.pathExists historiaDir = true by unfold FS.pathExists; rw [hc]; rfl)]
  split
  next heq =>
    rw [hjson] at heq
    exact absurd heq (by simp)
  next acts1 fs1 heq =>
    rw [hjson] at heq
    obtain ⟨ha, hf⟩ := Prod.mk.inj (Option.some.inj heq)
    subst ha
    subst hf
    rw [if_neg (by rw [hpi]; simp)]

end UpdateHistoria

namespace UpdateHistoria

/-! ### Witness and counterexample data -/

/-- Sample filesystem for the witnesses: both roots exist, the answers file
is present on both sides with different bytes, the source image directory
holds two regular files (one hidden) and a subdirectory, the destination
image directory is absent, and a stale file sits in the destination root. -/
def sampleFS : FS :=
  [(["Historia"], .dir), (["website"], .dir),
   (["Historia", "correct_answers.json"], .file [1, 2, 3]),
   (["Historia", "images"], .dir),
   (["Historia", "images", "a.png"], .file [7, 8]),
   (["Historia", "images", ".hidden"], .file [9]),
   (["Historia", "images", "sub"], .dir),
   (["website", "correct_answers.json"], .file [0]),
   (["website", "stale.txt"], .file [5])]

/-- The outcome of one run of main on `sampleFS`. -/
def sampleRun1 : RunResult :=
  ⟨[Action.copy ["Historia", "correct_answers.json"] ["website", "correct_answers.json"],
    Action.mkdirDir ["website", "images"],
    Action.copy ["Historia", "images", "a.png"] ["website", "images", "a.png"],
    Action.copy ["Historia", "images", ".hidden"] ["website", "images", ".hidden"]],
   [(["website", "images", ".hidden"], .file [9]),
    (["website", "images", "a.png"], .file [7, 8]),
    (["website", "images"], .dir),
    (["website", "correct_answers.json"], .file [1, 2, 3]),
    (["Historia"], .dir),
    (["website"], .dir),
    (["Historia", "correct_answers.json"], .file [1, 2, 3]),
    (["Historia", "images"], .dir),
    (["Historia", "images", "a.png"], .file [7, 8]),
    (["Historia", "images", ".hidden"], .file [9]),
    (["Historia", "images", "sub"], .dir),
    (["website", "stale.txt"], .file [5])],
   0⟩

/-- The outcome of a second run of main, starting from `sampleRun1.fs`. -/
def sampleRun2 : RunResult :=
  ⟨[Action.copy ["Historia", "correct_answers.json"] ["website", "correct_answers.json"],
    Action.copy ["Historia", "images", "a.png"] ["website", "images", "a.png"],
    Action.copy ["Historia", "images", ".hidden"] ["website", "images", ".hidden"]],
   [(["website", "images", ".hidden"], .file [9]),
    (["website", "images", "a.png"], .file [7, 8]),
    (["website", "correct_answers.json"], .file [1, 2, 3]),
    (["website", "images"], .dir),
    (["Historia"], .dir),
    (["website"], .dir),
    (["Historia", "correct_answers.json"], .file [1, 2, 3]),
    (["Historia", "images"], .dir),
    (["Historia", "images", "a.png"], .file [7, 8]),
    (["Historia", "images", ".hidden"], .file [9]),
    (["Historia", "images", "sub"], .dir),
    (["website", "stale.txt"], .file [5])],
   0⟩

/-- A filesystem whose destination answers path is occupied by a directory:
the run completes, but the copy lands inside that directory. -/
def dirDestJsonFS : FS :=
  [(["Historia"], .dir), (["website"], .dir),
   (["Historia", "correct_answers.json"], .file [1, 2, 3]),
   (["website", "correct_answers.json"], .dir)]

/-- The outcome of running main on `dirDestJsonFS`: exit code 0, with the
answers bytes written inside the directory occupying the destination path. -/
def dirDestJsonRun : RunResult :=
  ⟨[Action.copy ["Historia", "correct_answers.json"]
      ["website", "correct_answers.json", "correct_answers.json"]],
   [(["website", "correct_answers.json", "correct_answers.json"], .file [1, 2, 3]),
    (["Historia"], .dir),
    (["website"], .dir),
    (["Historia", "correct_answers.json"], .file [1, 2, 3]),
    (["website", "correct_answers.json"], .dir)],
   0⟩

/-- A filesystem whose destination image path `website/images/a.png` is
occupied by a directory while the source `Historia/images/a.png` is a
regular file. -/
def dirDestImgFS : FS :=
  [(["Historia"], .dir), (["website"], .dir),
   (["Historia", "images"], .dir),
   (["Historia", "images", "a.png"], .file [7]),
   (["website", "images"], .dir),
   (["website", "images", "a.png"], .dir)]

/-- The outcome of running main on `dirDestImgFS`: exit code 0, with the
image bytes written inside the directory occupying the destination path. -/
def dirDestImgRun : RunResult :=
  ⟨[Action.copy ["Historia", "images", "a.png"] ["website", "images", "a.png", "a.png"]],
   [(["website", "images", "a.png", "a.png"], .file [7]),
    (["Historia"], .dir),
    (["website"], .dir),
    (["Historia", "images"], .dir),
    (["Historia", "images", "a.png"], .file [7]),
    (["website", "images"], .dir),
    (["website", "images", "a.png"], .dir)],
   0⟩

/-! ### Witnesses and counterexamples -/

/-- Counterexample to C2 as stated: with a directory at the destination
answers path the run completes (exit code 0), but afterwards the destination
root does not hold a byte-identical answers file; the copy landed inside the
directory. -/
theorem answers_artifact_copied_byte_identical_counterexample :
    FS.pathExists dirDestJsonFS historiaDir = true
    ∧ FS.pathExists dirDestJsonFS sourceJson = true
    ∧ main dirDestJsonFS = .ok dirDestJsonRun
    ∧ dirDestJsonRun.exitCode = 0
    ∧ ¬ (FS.content dirDestJsonRun.fs destJson = FS.content dirDestJsonFS sourceJson
        ∧ (FS.content dirDestJsonRun.fs destJson).isSome = true) :=
  ⟨rfl, rfl, rfl, rfl, by decide⟩

/-- Witness for C2 on `sampleFS`, whose destination answers path holds a
regular file before the run. -/
theorem answers_artifact_copied_byte_identical_witness :
    FS.pathExists sampleFS historiaDir = true
    ∧ FS.pathExists sampleFS sourceJson = true
    ∧ FS.isDir sampleFS destJson = false
    ∧ main sampleFS = .ok sampleRun1
    ∧ (FS.content sampleRun1.fs destJson = FS.content sampleFS sourceJson
      ∧ (FS.content sampleRun1.fs destJson).isSome = true) :=
  ⟨rfl, rfl, rfl, rfl,
   answers_artifact_copied_byte_identical sampleFS sampleRun1 rfl rfl rfl rfl⟩

/-- Counterexample to C3 as stated: with a directory at
`website/images/a.png` the run completes, but the destination image
directory does not hold a byte-identical `a.png` file. -/
theorem image_files_copied_no_recursion_counterexample :
    FS.pathExists dirDestImgFS historiaDir = true
    ∧ FS.pathExists dirDestImgFS sourceImages = true
    ∧ main dirDestImgFS = .ok dirDestImgRun
    ∧ dirDestImgRun.exitCode = 0
    ∧ ¬ (∀ n ∈ FS.glob dirDestImgFS sourceImages,
          FS.isFile dirDestImgFS (sourceImages ++ [n]) = true →
          FS.content dirDestImgRun.fs (destImages ++ [n])
              = FS.content dirDestImgFS (sourceImages ++ [n])
          ∧ (FS.content dirDestImgRun.fs (destImages ++ [n])).isSome = true) :=
  ⟨rfl, rfl, rfl, rfl, fun hA => absurd (hA "a.png" (by decide) (by decide)).1 (by decide)⟩

/-- Witness for C3 on `sampleFS`. -/
theorem image_files_copied_no_recursion_witness :
    FS.pathExists sampleFS historiaDir = true
    ∧ FS.pathExists sampleFS sourceImages = true
    ∧ main sampleFS = .ok sampleRun1
    ∧ ((∀ n ∈ FS.glob sampleFS sourceImages,
          FS.isFile sampleFS (sourceImages ++ [n]) = true →
          FS.isDir sampleFS (destImages ++ [n]) = false →
          FS.content sampleRun1.fs (destImages ++ [n])
              = FS.content sampleFS (sourceImages ++ [n])
          ∧ (FS.content sampleRun1.fs (destImages ++ [n])).isSome = true)
      ∧ (∀ s d, Action.copy s d ∈ sampleRun1.trace →
          s = sourceJson
          ∨ ∃ n, FS.isFile sampleFS (sourceImages ++ [n]) = true
              ∧ s = sourceImages ++ [n])) :=
  ⟨rfl, rfl, rfl, image_files_copied_no_recursion sampleFS sampleRun1 rfl rfl rfl⟩

/-- Counterexample to C4 as stated: with a directory at
`website/images/a.png` the regular file `Historia/images/a.png` is not
copied to `website/images/a.png` (neither the action nor the content
equality holds there); the copy goes inside the directory instead. -/
theorem all_image_files_copied_including_hidden_counterexample :
    FS.pathExists dirDestImgFS historiaDir = true
    ∧ FS.pathExists dirDestImgFS sourceImages = true
    ∧ main dirDestImgFS = .ok dirDestImgRun
    ∧ ¬ (∀ n, FS.isFile dirDestImgFS (sourceImages ++ [n]) = true →
        Action.copy (sourceImages ++ [n]) (destImages ++ [n]) ∈ dirDestImgRun.trace
        ∧ FS.content dirDestImgRun.fs (destImages ++ [n])
            = FS.content dirDestImgFS (sourceImages ++ [n])) :=
  ⟨rfl, rfl, rfl, fun hA => absurd (hA "a.png" (by decide)).1 (by decide)⟩

/-- Witness for C4 on `sampleFS`, instantiated in particular at the hidden
file `.hidden`, which is indeed copied. -/
theorem all_image_files_copied_including_hidden_witness :
    FS.pathExists sampleFS historiaDir = true
    ∧ FS.pathExists sampleFS sourceImages = true
    ∧ main sampleFS = .ok sampleRun1
    ∧ (∀ n, FS.isFile sampleFS (sourceImages ++ [n]) = true →
        FS.isDir sampleFS (destImages ++ [n]) = false →
        Action.copy (sourceImages ++ [n]) (destImages ++ [n]) ∈ sampleRun1.trace
        ∧ FS.content sampleRun1.fs (destImages ++ [n])
            = FS.content sampleFS (sourceImages ++ [n]))
    ∧ Action.copy (sourceImages ++ [".hidden"]) (destImages ++ [".hidden"])
        ∈ sampleRun1.trace :=
  ⟨rfl, rfl, rfl, all_image_files_copied_including_hidden sampleFS sampleRun1 rfl rfl rfl,
   (all_image_files_copied_including_hidden sampleFS sampleRun1 rfl rfl rfl
     ".hidden" rfl rfl).1⟩

/-- Witness for C5: a filesystem whose source root exists but where both
sub-items are missing; the run completes with exit code 0 and the
pre-existing destination answers file keeps its bytes. -/
theorem missing_subitems_recoverable_witness :
    FS.pathExists [(["Historia"], Entry.dir), (["website"], Entry.dir),
        (["website", "correct_answers.json"], Entry.file [0])] historiaDir = true
    ∧ main [(["Historia"], Entry.dir), (["website"], Entry.dir),
        (["website", "correct_answers.json"], Entry.file [0])]
      = .ok ⟨[], [(["Historia"], Entry.dir), (["website"], Entry.dir),
        (["website", "correct_answers.json"], Entry.file [0])], 0⟩
    ∧ ((⟨[], [(["Historia"], Entry.dir), (["website"], Entry.dir),
        (["website", "correct_answers.json"], Entry.file [0])], 0⟩ : RunResult).exitCode = 0
      ∧ (FS.pathExists [(["Historia"], Entry.dir), (["website"], Entry.dir),
            (["website", "correct_answers.json"], Entry.file [0])] sourceJson = false →
          FS.lookup (⟨[], [(["Historia"], Entry.dir), (["website"], Entry.dir),
            (["website", "correct_answers.json"], Entry.file [0])], 0⟩ : RunResult).fs destJson
          = FS.lookup [(["Historia"], Entry.dir), (["website"], Entry.dir),
            (["website", "correct_answers.json"], Entry.file [0])] destJson)) :=
  ⟨rfl, rfl, missing_subitems_recoverable _ _ rfl rfl⟩

/-- Witness for C6 on `sampleFS`, whose destination image directory is
absent before the run. -/
theorem dest_image_dir_created_before_copies_witness :
    FS.pathExists sampleFS historiaDir = true
    ∧ FS.pathExists sampleFS sourceImages = true
    ∧ FS.pathExists sampleFS destImages = false
    ∧ main sampleFS = .ok sampleRun1
    ∧ (∃ l1 l2, sampleRun1.trace = l1 ++ Action.mkdirDir destImages :: l2
      ∧ (∀ s d, Action.copy s d ∈ l1 → ∀ n, d ≠ destImages ++ [n])
      ∧ FS.isDir sampleRun1.fs destImages = true) :=
  ⟨rfl, rfl, rfl, rfl, dest_image_dir_created_before_copies sampleFS sampleRun1 rfl rfl rfl rfl⟩

/-- Witness for C7: two consecutive runs on `sampleFS`; the final filesystems
agree on every path. -/
theorem rerun_idempotent_witness :
    main sampleFS = .ok sampleRun1
    ∧ main sampleRun1.fs = .ok sampleRun2
    ∧ ∀ p, FS.lookup sampleRun2.fs p = FS.lookup sampleRun1.fs p :=
  ⟨rfl, rfl, rerun_idempotent sampleFS sampleRun1 sampleRun2 rfl rfl⟩

/-- Counterexample to C8 as stated: a directory occupying the json
destination is not overwritten; the run completes but the destination still
holds the directory, not the source bytes. -/
theorem existing_destinations_overwritten_counterexample :
    FS.pathExists dirDestJsonFS historiaDir = true
    ∧ main dirDestJsonFS = .ok dirDestJsonRun
    ∧ ¬ (∀ c, FS.lookup dirDestJsonFS sourceJson = some (Entry.file c) →
        FS.lookup dirDestJsonRun.fs destJson = some (Entry.file c)) :=
  ⟨rfl, rfl, fun hA => absurd (hA [1, 2, 3] (by decide)) (by decide)⟩

/-- Witness for C8 on `sampleFS`, whose destination answers file holds
different bytes than the source before the run and the source bytes after. -/
theorem existing_destinations_overwritten_witness :
    FS.pathExists sampleFS historiaDir = true
    ∧ main sampleFS = .ok sampleRun1
    ∧ ((∀ c, FS.isDir sampleFS destJson = false →
        FS.lookup sampleFS sourceJson = some (Entry.file c) →
        FS.lookup sampleRun1.fs destJson = some (Entry.file c))
      ∧ (FS.pathExists sampleFS sourceImages = true →
        ∀ n c, FS.isDir sampleFS (destImages ++ [n]) = false →
          FS.lookup sampleFS (sourceImages ++ [n]) = some (Entry.file c) →
          FS.lookup sampleRun1.fs (destImages ++ [n]) = some (Entry.file c))) :=
  ⟨rfl, rfl, existing_destinations_overwritten sampleFS sampleRun1 rfl rfl⟩

/-- Witness for C9 on `sampleFS`, which holds a stale destination file
`website/stale.txt` that survives the run unchanged. -/
theorem no_stale_destination_deleted_witness :
    main sampleFS = .ok sampleRun1
    ∧ (∀ p, FS.pathExists sampleFS p = true →
        (∀ s d, Action.copy s d ∈ sampleRun1.trace → p ≠ d) →
        FS.lookup sampleRun1.fs p = FS.lookup sampleFS p) :=
  ⟨rfl, no_stale_destination_deleted sampleFS sampleRun1 rfl⟩

/-- Witness for C10: a regular file occupies the `Historia` path; the run
completes with exit code 0, an empty trace, and the filesystem unchanged. -/
theorem source_root_nondirectory_completes_zero_witness :
    FS.isFile [(["Historia"], Entry.file [0])] historiaDir = true
    ∧ FS.lookup [(["Historia"], Entry.file [0])] sourceJson = none
    ∧ FS.lookup [(["Historia"], Entry.file [0])] sourceImages = none
    ∧ main [(["Historia"], Entry.file [0])]
      = .ok ⟨[], [(["Historia"], Entry.file [0])], 0⟩ :=
  ⟨rfl, rfl, rfl, source_root_nondirectory_completes_zero _ rfl rfl rfl⟩

end UpdateHistoria
